import Mathlib

/-!
Shallow embedding of the `jmux` path-based request router (Go, package `jmux`,
file modelled: the current `router.go` revision containing `Route.getRoute`,
`Router.ServeHTTP` with trailing-slash handling, and `Route.getParentMatch`
with the slash-child pre-check).

Modelling conventions:
* Go strings that are sliced byte-wise (patterns, URL paths, path segments)
  are modelled as `List Char` (`Str`); for ASCII input this matches Go's
  byte indexing.  HTTP method names are never sliced and stay `String`.
* Go `map[K]V` values are modelled as association lists with overwrite
  insertion (`ainsert`) and lookup (`alookup`); `map[string]Unit` method sets
  are modelled as duplicate-free `List String` built by membership-checking
  insertion.  Go map iteration order is unspecified; the association-list
  order (insertion order) is one admissible order and is noted where it
  matters (the parameter-child scan).
* A Go `Handler` interface value is identified by a `Nat` id; a possibly-nil
  Go handler is `Option Nat` (`none` = Go `nil`).  A map entry that is
  present but stores `nil` is `some none` under `alookup`, while an absent
  entry is `none`.
* `panic` in `Route.getRoute` (malformed pattern) is modelled by returning
  `none` from registration.
* The Go `parent` pointer is modelled by carrying the list of ancestors
  (nearest first) alongside the current node during dispatch.
* Chained registration `router.Handle(...).HandleAny(...)` mutates the
  returned node through its pointer; here `Route.getRoute` additionally
  returns the list of child keys leading to that node, and `Router.handleAnyAt`
  re-locates the node by that key path to apply the mutation.
-/

/-- Character-list strings, matching Go's byte-sliced strings for ASCII. -/
abbrev Str := List Char

/-- A Go `Handler` interface value: `none` is Go `nil`. -/
abbrev GoHandler := Option Nat

/-- Association-list lookup (Go map read with its `ok` flag: `none` = absent). -/
def alookup {α β : Type} [DecidableEq α] : List (α × β) → α → Option β
  | [], _ => none
  | (k, v) :: rest, key => if k = key then some v else alookup rest key

/-- Association-list overwrite insertion (Go map write). -/
def ainsert {α β : Type} [DecidableEq α] : List (α × β) → α → β → List (α × β)
  | [], key, v => [(key, v)]
  | (k, w) :: rest, key, v =>
    if k = key then (key, v) :: rest else (k, w) :: ainsert rest key v

/-- Insert the same value under every key of `ks` (Go `for k := range ks { m[k] = v }`). -/
def ainsertAll {β : Type} (m : List (String × β)) (ks : List String) (v : β) :
    List (String × β) :=
  ks.foldl (fun acc k => ainsert acc k v) m

/-- `MethodAll` is the wildcard method key (the empty string in the source). -/
def MethodAll : String := ""

/-- `Methods` is a set of method names (`map[string]Unit` in the source). -/
abbrev Methods := List String

/-- Add one method to a method set (Go `m[method] = Unit{}`; `Methods.Set`). -/
def Methods.set (m : Methods) (s : String) : Methods :=
  if s ∈ m then m else m ++ [s]

/-- `NewMethods`: build a method set from a list of names. -/
def NewMethods (ss : List String) : Methods :=
  ss.foldl Methods.set []

/-- `CloneMethods` (and the deprecated `CopyMethods`). -/
def CloneMethods (m : Methods) : Methods :=
  NewMethods m

/-- `Methods.CopyFrom`: union `other` into `m` (addition only). -/
def Methods.CopyFrom (m other : Methods) : Methods :=
  other.foldl Methods.set m

/-- `Methods.Has`. -/
def Methods.Has (m : Methods) (s : String) : Bool :=
  s ∈ m

/-- `Methods.HasOrAll`: member, or the wildcard is present. -/
def Methods.HasOrAll (m : Methods) (s : String) : Bool :=
  (s ∈ m : Bool) || (MethodAll ∈ m : Bool)

/-- `MethodsGet()`. -/
def MethodsGet : Methods := ["GET"]

/-- `MethodsPost()`. -/
def MethodsPost : Methods := ["POST"]

/-- `MethodsAll()`. -/
def MethodsAll : Methods := [MethodAll]

/-- A route-trie node: name, isParam flag, allowed methods, `matchAny`
(fallback) handlers, children, endpoint handlers.  The Go `parent` pointer is
reconstructed from the dispatch context instead of being stored. -/
inductive Route where
  | mk : Str → Bool → Methods → List (String × GoHandler) → List (Str × Route) →
      List (String × GoHandler) → Route

/-- Segment name (or parameter name) of a node. -/
def Route.name : Route → Str
  | .mk n _ _ _ _ _ => n

/-- Whether the node captures a parameter. -/
def Route.param : Route → Bool
  | .mk _ p _ _ _ _ => p

/-- The node's allowed method set. -/
def Route.methods : Route → Methods
  | .mk _ _ m _ _ _ => m

/-- The node's fallback (`matchAny`) handler map. -/
def Route.matchAny : Route → List (String × GoHandler)
  | .mk _ _ _ ma _ _ => ma

/-- The node's children, keyed by segment text / parameter name. -/
def Route.routes : Route → List (Str × Route)
  | .mk _ _ _ _ rs _ => rs

/-- The node's endpoint handler map. -/
def Route.handlers : Route → List (String × GoHandler)
  | .mk _ _ _ _ _ hs => hs

/-- Replace the handler map (field update on the Go struct). -/
def Route.setHandlers : Route → List (String × GoHandler) → Route
  | .mk n p m ma rs _, hs => .mk n p m ma rs hs

/-- Replace the children map (field update on the Go struct). -/
def Route.setRoutes : Route → List (Str × Route) → Route
  | .mk n p m ma _ hs, rs => .mk n p m ma rs hs

/-- Replace the method set (field update on the Go struct). -/
def Route.setMethods : Route → Methods → Route
  | .mk n p _ ma rs hs, m => .mk n p m ma rs hs

/-- Replace the `matchAny` map (field update on the Go struct). -/
def Route.setMatchAny : Route → List (String × GoHandler) → Route
  | .mk n p m _ rs hs, ma => .mk n p m ma rs hs

@[simp] theorem Route.name_mk (n p m ma rs hs) : (Route.mk n p m ma rs hs).name = n := rfl
@[simp] theorem Route.param_mk (n p m ma rs hs) : (Route.mk n p m ma rs hs).param = p := rfl
@[simp] theorem Route.methods_mk (n p m ma rs hs) : (Route.mk n p m ma rs hs).methods = m := rfl
@[simp] theorem Route.matchAny_mk (n p m ma rs hs) : (Route.mk n p m ma rs hs).matchAny = ma := rfl
@[simp] theorem Route.routes_mk (n p m ma rs hs) : (Route.mk n p m ma rs hs).routes = rs := rfl
@[simp] theorem Route.handlers_mk (n p m ma rs hs) : (Route.mk n p m ma rs hs).handlers = hs := rfl

@[simp] theorem Route.setHandlers_mk (n p m ma rs hs hs') :
    (Route.mk n p m ma rs hs).setHandlers hs' = .mk n p m ma rs hs' := rfl
@[simp] theorem Route.setRoutes_mk (n p m ma rs hs rs') :
    (Route.mk n p m ma rs hs).setRoutes rs' = .mk n p m ma rs' hs := rfl
@[simp] theorem Route.setMethods_mk (n p m ma rs hs m') :
    (Route.mk n p m ma rs hs).setMethods m' = .mk n p m' ma rs hs := rfl
@[simp] theorem Route.setMatchAny_mk (n p m ma rs hs ma') :
    (Route.mk n p m ma rs hs).setMatchAny ma' = .mk n p m ma' rs hs := rfl

/-- `Route.getHandler`: the endpoint handler for a method, falling back to the
wildcard key; a stored `nil` reads the same as absent (Go zero-value lookup). -/
def Route.getHandler (route : Route) (method : String) : Option Nat :=
  match (alookup route.handlers method).join with
  | none => (alookup route.handlers MethodAll).join
  | some h => some h

/-- `Route.getMatchAnyHandler`: method-specific fallback entry first, then the
wildcard entry; an entry present in either but holding `nil` resolves to the
node's own endpoint handler; absent in both resolves to nothing. -/
def Route.getMatchAnyHandler (route : Route) (method : String) : Option Nat :=
  let hok := alookup route.matchAny method
  match hok with
  | some (some h) => some h
  | _ =>
    let hokAll := alookup route.matchAny MethodAll
    match hokAll with
    | some (some h) => some h
    | _ => if hok = none ∧ hokAll = none then none else route.getHandler method

/-- The upward `for ; route != nil; route = route.parent` loop of
`Route.getParentMatch`, over the explicit node chain. -/
def matchAnyChain : List Route → String → Option Nat
  | [], _ => none
  | r :: rest, method =>
    match r.getMatchAnyHandler method with
    | some h => some h
    | none => matchAnyChain rest method

/-- `Route.getParentMatch` for the node `route` whose ancestors (nearest
first) are `ancs`: a non-`"/"` node first consults its `"/"` child's fallback,
then walks upward from itself; a `"/"`-named node starts the walk at its
grandparent, skipping itself and its parent. -/
def getParentMatch (route : Route) (ancs : List Route) (method : String) : Option Nat :=
  if route.name ≠ ['/'] then
    match alookup route.routes ['/'] with
    | some r =>
      match r.getMatchAnyHandler method with
      | some h => some h
      | none => matchAnyChain (route :: ancs) method
    | none => matchAnyChain (route :: ancs) method
  else
    matchAnyChain (ancs.drop 1) method

/-- `Route.HandleAny` applied at the node itself: store `h` (possibly `nil`)
in `matchAny` under every method of the set. -/
def Route.handleAnyHere (route : Route) (methods : Methods) (h : GoHandler) : Route :=
  route.setMatchAny (ainsertAll route.matchAny methods h)

/-- Apply `f` to the node reached by following child keys `ks` (models a Go
mutation through a retained `*Route`); a missing key leaves the trie unchanged. -/
def Route.updateAt : Route → List Str → (Route → Route) → Route
  | route, [], f => f route
  | route, k :: ks, f =>
    match alookup route.routes k with
    | some c => route.setRoutes (ainsert route.routes k (c.updateAt ks f))
    | none => route

/-- `strings.IndexByte(path, '/')` (Go `-1` becomes `none`). -/
def nextSlug : Str → Option Nat
  | [] => none
  | c :: rest => if c = '/' then some 0 else (nextSlug rest).map (· + 1)

theorem nextSlug_lt {p : Str} {l : Nat} (h : nextSlug p = some l) : l < p.length := by
  induction p generalizing l with
  | nil => simp [nextSlug] at h
  | cons c rest ih =>
    simp only [nextSlug] at h
    split at h
    · simp only [Option.some.injEq] at h
      simp [← h]
    · rw [Option.map_eq_some'] at h
      obtain ⟨a, ha, rfl⟩ := h
      have := ih ha
      simp only [List.length_cons]
      omega

theorem nextSlug_head {p : Str} {l : Nat} (h : nextSlug p = some l)
    (hh : p.head? ≠ some '/') : 1 ≤ l := by
  cases p with
  | nil => simp [nextSlug] at h
  | cons c rest =>
    have hc : ¬ c = '/' := by simpa using hh
    simp only [nextSlug, if_neg hc, Option.map_eq_some'] at h
    obtain ⟨a, -, rfl⟩ := h
    omega

/-- Strip one leading slash (done by both `Router.Handle`/`Route.getRoute` on
patterns and `Router.ServeHTTP` on request paths). -/
def stripLead (p : Str) : Str :=
  if p.head? = some '/' then p.tail else p

/-- `p[:l]` where `l` is the next-slash index (or the whole string). -/
def segSlug0 (p : Str) : Str :=
  p.take ((nextSlug p).getD p.length)

/-- `""` when the segment reaches the end of the string, else `p[l:]`. -/
def segRest (p : Str) : Str :=
  let l := (nextSlug p).getD p.length
  if l = p.length then [] else p.drop l

/-- The raw text of the next pattern segment consumed by `Route.getRoute`
(`pattern[:l]` after stripping one leading slash). -/
def patSlug0 (pat : Str) : Str :=
  segSlug0 (stripLead pat)

/-- The pattern remainder passed to the recursive `Route.getRoute` call. -/
def patRest (pat : Str) : Str :=
  segRest (stripLead pat)

/-- One step of pattern-segment interpretation in `Route.getRoute`:
canonicalise an empty segment to the reserved `"/"` marker and unwrap `{...}`
parameter braces; `none` models the missing-closing-brace panic.  Returns
`(segment key, isParam)`. -/
def stepPat (pat : Str) : Option (Str × Bool) :=
  let slug0 := patSlug0 pat
  let slug1 := if slug0 = [] then ['/'] else slug0
  if slug1.head? = some '{' then
    if slug0.getLast? = some '}' then some ((slug0.drop 1).dropLast, true) else none
  else some (slug1, false)

theorem segRest_le (p : Str) : (segRest p).length ≤ p.length := by
  rcases hns : nextSlug p with _ | l
  · simp [segRest, hns]
  · simp only [segRest, hns, Option.getD_some]
    split
    · simp
    · simp

theorem segRest_lt_of_head {p : Str} (hne : p ≠ []) (hh : p.head? ≠ some '/') :
    (segRest p).length < p.length := by
  have hpos : 0 < p.length := List.length_pos.mpr hne
  rcases hns : nextSlug p with _ | l
  · simp [segRest, hns, hpos]
  · have hl := nextSlug_lt hns
    have hl1 : 1 ≤ l := nextSlug_head hns hh
    simp only [segRest, hns, Option.getD_some]
    split
    · simpa using hpos
    · simp only [List.length_drop]
      omega

theorem patRest_lt {pat : Str} (hne : pat ≠ []) : (patRest pat).length < pat.length := by
  have hpos : 0 < pat.length := List.length_pos.mpr hne
  unfold patRest stripLead
  by_cases hh : pat.head? = some '/'
  · have htl : pat.tail.length < pat.length := by
      cases pat with
      | nil => exact absurd rfl hne
      | cons c r => simp
    rw [if_pos hh]
    exact lt_of_le_of_lt (segRest_le pat.tail) htl
  · rw [if_neg hh]
    exact segRest_lt_of_head hne hh

/-- `Route.getRoute`, with recursion bounded by a fuel counter so that the
definition is structural (each step strictly shortens the pattern, so
`pattern.length` fuel always suffices; the fuel-exhausted branch is
unreachable from `Route.getRoute`): walk/create the chain of nodes for
`pattern`, unioning `m` into every reused node, attaching `h` under every
method of `m` at the terminal node.  `none` models the malformed-pattern
panic.  Also returns the child-key path of the terminal node (the Go function
returns its pointer). -/
def Route.getRouteGas : Nat → Route → Str → Methods → GoHandler → Option (Route × List Str)
  | fuel, route, pattern, m, h =>
    if pattern = [] then
      some (route.setHandlers (ainsertAll route.handlers m h), [])
    else
      match fuel with
      | 0 => none
      | fuel + 1 =>
        match stepPat pattern with
        | none => none
        | some (slug, prm) =>
          let r0 : Route :=
            match alookup route.routes slug with
            | some r => r.setMethods (Methods.CopyFrom r.methods m)
            | none => Route.mk slug prm (CloneMethods m) [] [] []
          match Route.getRouteGas fuel r0 (patRest pattern) m h with
          | none => none
          | some (r', path) =>
            some (route.setRoutes (ainsert route.routes slug r'), slug :: path)

/-- `Route.getRoute` proper: run the pattern walk with sufficient fuel. -/
def Route.getRoute (route : Route) (pattern : Str) (m : Methods) (h : GoHandler) :
    Option (Route × List Str) :=
  Route.getRouteGas pattern.length route pattern m h

theorem getRouteGas_congr : ∀ (n fuel₁ fuel₂ : Nat) (route : Route) (pattern : Str)
    (m : Methods) (h : GoHandler), pattern.length ≤ n →
    pattern.length ≤ fuel₁ → pattern.length ≤ fuel₂ →
    Route.getRouteGas fuel₁ route pattern m h = Route.getRouteGas fuel₂ route pattern m h := by
  intro n
  induction n with
  | zero =>
    intro fuel₁ fuel₂ route pattern m h hn h₁ h₂
    have hp : pattern = [] := List.eq_nil_of_length_eq_zero (by omega)
    subst hp
    rw [Route.getRouteGas.eq_def, Route.getRouteGas.eq_def]
    simp
  | succ n ih =>
    intro fuel₁ fuel₂ route pattern m h hn h₁ h₂
    by_cases hp : pattern = []
    · subst hp
      rw [Route.getRouteGas.eq_def, Route.getRouteGas.eq_def]
      simp
    · have hpos : 0 < pattern.length := List.length_pos.mpr hp
      have hlt := patRest_lt hp
      cases fuel₁ with
      | zero => omega
      | succ f₁ =>
      cases fuel₂ with
      | zero => omega
      | succ f₂ =>
        rw [Route.getRouteGas.eq_def, Route.getRouteGas.eq_def]
        simp only [if_neg hp]
        have hrec : ∀ r0 : Route,
            Route.getRouteGas f₁ r0 (patRest pattern) m h =
            Route.getRouteGas f₂ r0 (patRest pattern) m h := by
          intro r0
          exact ih f₁ f₂ r0 (patRest pattern) m h (by omega) (by omega) (by omega)
        cases stepPat pattern with
        | none => rfl
        | some sp => simp only [hrec]

/-- Unfolding equation for `Route.getRoute` at the empty pattern. -/
theorem getRoute_nil (route : Route) (m : Methods) (h : GoHandler) :
    route.getRoute [] m h = some (route.setHandlers (ainsertAll route.handlers m h), []) := rfl

/-- One-step unfolding equation for `Route.getRoute` at a nonempty pattern. -/
theorem getRoute_cons {pattern : Str} (hp : pattern ≠ []) (route : Route)
    (m : Methods) (h : GoHandler) :
    route.getRoute pattern m h =
      match stepPat pattern with
      | none => none
      | some (slug, prm) =>
        let r0 : Route :=
          match alookup route.routes slug with
          | some r => r.setMethods (Methods.CopyFrom r.methods m)
          | none => Route.mk slug prm (CloneMethods m) [] [] []
        match r0.getRoute (patRest pattern) m h with
        | none => none
        | some (r', path) =>
          some (route.setRoutes (ainsert route.routes slug r'), slug :: path) := by
  have hpos : 0 < pattern.length := List.length_pos.mpr hp
  have hlt := patRest_lt hp
  unfold Route.getRoute
  cases hl : pattern.length with
  | zero => omega
  | succ n =>
    rw [Route.getRouteGas.eq_def]
    simp only [if_neg hp]
    have hrec : ∀ r0 : Route,
        Route.getRouteGas n r0 (patRest pattern) m h =
        Route.getRouteGas (patRest pattern).length r0 (patRest pattern) m h := by
      intro r0
      exact getRouteGas_congr (patRest pattern).length n (patRest pattern).length r0
        (patRest pattern) m h (le_refl _) (by omega) (le_refl _)
    cases stepPat pattern with
    | none => rfl
    | some sp => simp only [hrec]

/-- The outcome of a dispatch: a trie/fallback handler invoked with the
accumulated captures, a router default handler (fresh empty captures), or the
not-found path (`none` = the built-in 404 writer). -/
inductive Outcome where
  | matched : Nat → List (Str × Str) → Outcome
  | defaulted : Nat → Outcome
  | notFound : GoHandler → Outcome
deriving DecidableEq

/-- The router: root node, per-method default handlers, not-found handler
(`none` models the built-in status-writing handler installed by `NewRouter`). -/
structure Router where
  base : Route
  defaultHandlers : List (String × GoHandler)
  notFoundHandler : GoHandler

/-- `NewRouter()`. -/
def NewRouter : Router :=
  ⟨.mk [] false [] [] [] [], [], none⟩

/-- `Router.getDefaultHandler`. -/
def Router.getDefaultHandler (router : Router) (method : String) : Option Nat :=
  match (alookup router.defaultHandlers method).join with
  | none => (alookup router.defaultHandlers MethodAll).join
  | some h => some h

/-- `Router.serveDefault`. -/
def Router.serveDefault (router : Router) (method : String) : Outcome :=
  match router.getDefaultHandler method with
  | none => .notFound router.notFoundHandler
  | some h => .defaulted h

/-- The code after `pathLoop` in `Router.ServeHTTP`: endpoint handler at the
final node, else ancestor fallback, else the default path. -/
def Router.finishAt (router : Router) (method : String) (route : Route)
    (ancs : List Route) (params : List (Str × Str)) : Outcome :=
  match route.getHandler method with
  | some h => .matched h params
  | none =>
    match getParentMatch route ancs method with
    | some h => .matched h params
    | none => router.serveDefault method

/-- The in-loop failure path of `Router.ServeHTTP`: ancestor fallback from the
given node, else the default path. -/
def Router.failAt (router : Router) (method : String) (route : Route)
    (ancs : List Route) (params : List (Str × Str)) : Outcome :=
  match getParentMatch route ancs method with
  | some h => .matched h params
  | none => router.serveDefault method

/-- The `slug == "/"` failure path inside the loop: step to the parent
(`route = route.parent`) before resolving ancestor fallback; if the parent is
nil (the failure was at the root), go straight to the default path. -/
def Router.failUp (router : Router) (method : String) (ancs : List Route)
    (params : List (Str × Str)) : Outcome :=
  match ancs with
  | [] => router.serveDefault method
  | p :: a => router.failAt method p a params

/-- The parameter-child scan (`for _, ro := range route.routes`): the first
child (in insertion order; Go iterates in unspecified order) whose `param` is
set and whose methods accept the request method. -/
def findParamChild (rs : List (Str × Route)) (method : String) : Option Route :=
  (rs.find? (fun kc => kc.2.param && Methods.HasOrAll kc.2.methods method)).map (·.2)

/-- The slug split off by one `pathLoop` iteration of `Router.ServeHTTP`,
with an empty slug canonicalised to the `"/"` marker. -/
def slugOf (up : Str) : Str :=
  let s := match nextSlug up with
    | some l => up.take l
    | none => up
  if s = [] then ['/'] else s

/-- The URL-path remainder after one `pathLoop` iteration: skip past the
slash; with a trailing-slash request, a final empty remainder after a nonempty
slug is turned back into `"/"`. -/
def slugRest (ts : Bool) (up : Str) : Str :=
  match nextSlug up with
  | some l =>
    let r := up.drop (l + 1)
    if ts = true ∧ l ≠ 0 ∧ r = [] then ['/'] else r
  | none => []

theorem slugRest_lt {ts : Bool} {up : Str} (hne : up ≠ []) :
    (slugRest ts up).length < up.length := by
  have hpos : 0 < up.length := List.length_pos.mpr hne
  rcases hns : nextSlug up with _ | l
  · simp [slugRest, hns, hpos]
  · have hl := nextSlug_lt hns
    simp only [slugRest, hns]
    split
    · rename_i hc
      obtain ⟨-, hl0, -⟩ := hc
      simp only [List.length_cons, List.length_nil]
      omega
    · simp only [List.length_drop]
      omega

/-- The `pathLoop` of `Router.ServeHTTP`, with the ancestor chain carried
explicitly and recursion bounded by a fuel counter (each iteration strictly
shortens the remaining path, so `urlPath.length` fuel always suffices; the
fuel-exhausted branch is unreachable from `Router.serveLoop`): look up a
literal child; else scan for a parameter child; else fail over to ancestor
fallback (stepping to the parent first when the failing slug is the `"/"`
marker); descending into a child whose methods reject the request method
breaks out to the epilogue at that child. -/
def Router.serveLoopGas (router : Router) (method : String) (ts : Bool) :
    Nat → Route → List Route → List (Str × Str) → Str → Outcome
  | fuel, route, ancs, params, urlPath =>
    if urlPath = [] then router.finishAt method route ancs params
    else
      match fuel with
      | 0 => router.serveDefault method
      | fuel + 1 =>
        let slug := slugOf urlPath
        match alookup route.routes slug with
        | some ro =>
          if Methods.HasOrAll ro.methods method = false then
            router.finishAt method ro (route :: ancs) params
          else
            router.serveLoopGas method ts fuel ro (route :: ancs)
              (if ro.param then ainsert params ro.name slug else params)
              (slugRest ts urlPath)
        | none =>
          match findParamChild route.routes method with
          | some ro =>
            router.serveLoopGas method ts fuel ro (route :: ancs)
              (ainsert params ro.name slug) (slugRest ts urlPath)
          | none =>
            if slug = ['/'] then router.failUp method ancs params
            else router.failAt method route ancs params

/-- The `pathLoop` proper: run with sufficient fuel. -/
def Router.serveLoop (router : Router) (method : String) (ts : Bool)
    (route : Route) (ancs : List Route) (params : List (Str × Str))
    (urlPath : Str) : Outcome :=
  router.serveLoopGas method ts urlPath.length route ancs params urlPath

theorem serveLoopGas_congr : ∀ (n : Nat) (router : Router) (method : String) (ts : Bool)
    (fuel₁ fuel₂ : Nat) (route : Route) (ancs : List Route) (params : List (Str × Str))
    (urlPath : Str), urlPath.length ≤ n →
    urlPath.length ≤ fuel₁ → urlPath.length ≤ fuel₂ →
    router.serveLoopGas method ts fuel₁ route ancs params urlPath =
      router.serveLoopGas method ts fuel₂ route ancs params urlPath := by
  intro n
  induction n with
  | zero =>
    intro router method ts fuel₁ fuel₂ route ancs params urlPath hn h₁ h₂
    have hp : urlPath = [] := List.eq_nil_of_length_eq_zero (by omega)
    subst hp
    rw [Router.serveLoopGas.eq_def, Router.serveLoopGas.eq_def]
    simp
  | succ n ih =>
    intro router method ts fuel₁ fuel₂ route ancs params urlPath hn h₁ h₂
    by_cases hp : urlPath = []
    · subst hp
      rw [Router.serveLoopGas.eq_def, Router.serveLoopGas.eq_def]
      simp
    · have hpos : 0 < urlPath.length := List.length_pos.mpr hp
      have hlt := @slugRest_lt ts urlPath hp
      cases fuel₁ with
      | zero => omega
      | succ f₁ =>
      cases fuel₂ with
      | zero => omega
      | succ f₂ =>
        rw [Router.serveLoopGas.eq_def, Router.serveLoopGas.eq_def]
        simp only [if_neg hp]
        have hrec : ∀ (ro : Route) (ps : List (Str × Str)),
            router.serveLoopGas method ts f₁ ro (route :: ancs) ps (slugRest ts urlPath) =
            router.serveLoopGas method ts f₂ ro (route :: ancs) ps (slugRest ts urlPath) := by
          intro ro ps
          exact ih router method ts f₁ f₂ ro (route :: ancs) ps (slugRest ts urlPath)
            (by omega) (by omega) (by omega)
        cases alookup route.routes (slugOf urlPath) with
        | some ro => simp only [hrec]
        | none => cases findParamChild route.routes method with
          | some ro => simp only [hrec]
          | none => rfl

/-- Unfolding equation for `Router.serveLoop` at the exhausted path. -/
theorem serveLoop_nil (router : Router) (method : String) (ts : Bool) (route : Route)
    (ancs : List Route) (params : List (Str × Str)) :
    router.serveLoop method ts route ancs params [] =
      router.finishAt method route ancs params := rfl

/-- One-step unfolding equation for `Router.serveLoop` on a nonempty path. -/
theorem serveLoop_cons {urlPath : Str} (hp : urlPath ≠ []) (router : Router)
    (method : String) (ts : Bool) (route : Route) (ancs : List Route)
    (params : List (Str × Str)) :
    router.serveLoop method ts route ancs params urlPath =
      (let slug := slugOf urlPath
      match alookup route.routes slug with
      | some ro =>
        if Methods.HasOrAll ro.methods method = false then
          router.finishAt method ro (route :: ancs) params
        else
          router.serveLoop method ts ro (route :: ancs)
            (if ro.param then ainsert params ro.name slug else params)
            (slugRest ts urlPath)
      | none =>
        match findParamChild route.routes method with
        | some ro =>
          router.serveLoop method ts ro (route :: ancs)
            (ainsert params ro.name slug) (slugRest ts urlPath)
        | none =>
          if slug = ['/'] then router.failUp method ancs params
          else router.failAt method route ancs params) := by
  have hpos : 0 < urlPath.length := List.length_pos.mpr hp
  have hlt := @slugRest_lt ts urlPath hp
  unfold Router.serveLoop
  cases hl : urlPath.length with
  | zero => omega
  | succ n =>
    rw [Router.serveLoopGas.eq_def]
    simp only [if_neg hp]
    have hrec : ∀ (ro : Route) (ps : List (Str × Str)),
        router.serveLoopGas method ts n ro (route :: ancs) ps (slugRest ts urlPath) =
        router.serveLoopGas method ts (slugRest ts urlPath).length ro (route :: ancs) ps
          (slugRest ts urlPath) := by
      intro ro ps
      exact serveLoopGas_congr (slugRest ts urlPath).length router method ts n
        (slugRest ts urlPath).length ro (route :: ancs) ps (slugRest ts urlPath)
        (le_refl _) (by omega) (le_refl _)
    cases alookup route.routes (slugOf urlPath) with
    | some ro => simp only [hrec]
    | none => cases findParamChild route.routes method with
      | some ro => simp only [hrec]
      | none => rfl

/-- `Router.ServeHTTP`: strip one leading slash, record the trailing-slash
flag, and run the path loop from the root with empty captures. -/
def Router.ServeHTTP (router : Router) (path : Str) (method : String) : Outcome :=
  let urlPath := stripLead path
  let ts : Bool := urlPath.getLast? = some '/'
  router.serveLoop method ts router.base [] [] urlPath

/-- `Router.Handle`: empty pattern is a no-op (`none` path, router unchanged);
the literal pattern `"/"` attaches directly at the root and widens its method
set; otherwise strip one leading slash and insert below the root.  The outer
`none` models the malformed-pattern panic. -/
def Router.Handle (router : Router) (pattern : Str) (m : Methods) (h : GoHandler) :
    Option (Router × Option (List Str)) :=
  if pattern = [] then some (router, none)
  else if pattern = ['/'] then
    some (⟨(router.base.setHandlers (ainsertAll router.base.handlers m h)).setMethods
        (Methods.CopyFrom router.base.methods m),
      router.defaultHandlers, router.notFoundHandler⟩, some [])
  else
    match router.base.getRoute (stripLead pattern) m h with
    | some (b', path) => some (⟨b', router.defaultHandlers, router.notFoundHandler⟩, some path)
    | none => none

/-- `Route.HandleAny`/`Route.MatchAny` applied through the pointer returned by
a registration: locate the node by its child-key path and store `h` (or `nil`
for `MatchAny`) under every method of the set. -/
def Router.handleAnyAt (router : Router) (path : List Str) (m : Methods) (h : GoHandler) :
    Router :=
  ⟨router.base.updateAt path (fun r => r.handleAnyHere m h),
    router.defaultHandlers, router.notFoundHandler⟩

/-- `Router.Default`: register default handlers for the given methods. -/
def Router.Default (router : Router) (m : Methods) (h : GoHandler) : Router :=
  ⟨router.base, ainsertAll router.defaultHandlers m h, router.notFoundHandler⟩

/-! ### Segment-level views of registration and dispatch

`parseSegs` records the sequence of `(segment key, isParam)` pairs that
`Route.getRoute` consumes from a pattern; `pathSlugs` records the sequence of
slugs that the `pathLoop` consumes from a request path; `insertSegs` and
`walkSlugs` are the corresponding segment-list recursions.  The bridge lemmas
prove that registration and dispatch factor through these views. -/

/-- The `(key, isParam)` segment sequence consumed from a pattern by
`Route.getRoute` (`none` = malformed pattern), fuel-bounded. -/
def parseSegsGas : Nat → Str → Option (List (Str × Bool))
  | fuel, pat =>
    if pat = [] then some []
    else
      match fuel with
      | 0 => none
      | fuel + 1 =>
        match stepPat pat with
        | none => none
        | some (k, b) => (parseSegsGas fuel (patRest pat)).map ((k, b) :: ·)

/-- The segment sequence of a pattern. -/
def parseSegs (pat : Str) : Option (List (Str × Bool)) :=
  parseSegsGas pat.length pat

theorem parseSegsGas_congr : ∀ (n fuel₁ fuel₂ : Nat) (pat : Str),
    pat.length ≤ n → pat.length ≤ fuel₁ → pat.length ≤ fuel₂ →
    parseSegsGas fuel₁ pat = parseSegsGas fuel₂ pat := by
  intro n
  induction n with
  | zero =>
    intro fuel₁ fuel₂ pat hn h₁ h₂
    have hp : pat = [] := List.eq_nil_of_length_eq_zero (by omega)
    subst hp
    rw [parseSegsGas.eq_def, parseSegsGas.eq_def]
    simp
  | succ n ih =>
    intro fuel₁ fuel₂ pat hn h₁ h₂
    by_cases hp : pat = []
    · subst hp
      rw [parseSegsGas.eq_def, parseSegsGas.eq_def]
      simp
    · have hpos : 0 < pat.length := List.length_pos.mpr hp
      have hlt := patRest_lt hp
      cases fuel₁ with
      | zero => omega
      | succ f₁ =>
      cases fuel₂ with
      | zero => omega
      | succ f₂ =>
        rw [parseSegsGas.eq_def, parseSegsGas.eq_def]
        simp only [if_neg hp]
        have hrec : parseSegsGas f₁ (patRest pat) = parseSegsGas f₂ (patRest pat) :=
          ih f₁ f₂ (patRest pat) (by omega) (by omega) (by omega)
        cases stepPat pat with
        | none => rfl
        | some sp => simp only [hrec]

/-- `parseSegs` at the empty pattern. -/
theorem parseSegs_nil : parseSegs [] = some [] := rfl

/-- One-step unfolding of `parseSegs` at a nonempty pattern. -/
theorem parseSegs_cons {pat : Str} (hp : pat ≠ []) :
    parseSegs pat =
      match stepPat pat with
      | none => none
      | some (k, b) => (parseSegs (patRest pat)).map ((k, b) :: ·) := by
  have hpos : 0 < pat.length := List.length_pos.mpr hp
  have hlt := patRest_lt hp
  unfold parseSegs
  cases hl : pat.length with
  | zero => omega
  | succ n =>
    rw [parseSegsGas.eq_def]
    simp only [if_neg hp]
    have hrec : parseSegsGas n (patRest pat) = parseSegsGas (patRest pat).length (patRest pat) :=
      parseSegsGas_congr (patRest pat).length n (patRest pat).length (patRest pat)
        (le_refl _) (by omega) (le_refl _)
    cases stepPat pat with
    | none => rfl
    | some sp => simp only [hrec]

/-- The slug sequence consumed from a (leading-slash-stripped) request path by
the `pathLoop`, fuel-bounded. -/
def pathSlugsGas (ts : Bool) : Nat → Str → List Str
  | fuel, up =>
    if up = [] then []
    else
      match fuel with
      | 0 => []
      | fuel + 1 => slugOf up :: pathSlugsGas ts fuel (slugRest ts up)

/-- The slug sequence of a request path. -/
def pathSlugs (ts : Bool) (up : Str) : List Str :=
  pathSlugsGas ts up.length up

theorem pathSlugsGas_congr : ∀ (n : Nat) (ts : Bool) (fuel₁ fuel₂ : Nat) (up : Str),
    up.length ≤ n → up.length ≤ fuel₁ → up.length ≤ fuel₂ →
    pathSlugsGas ts fuel₁ up = pathSlugsGas ts fuel₂ up := by
  intro n
  induction n with
  | zero =>
    intro ts fuel₁ fuel₂ up hn h₁ h₂
    have hp : up = [] := List.eq_nil_of_length_eq_zero (by omega)
    subst hp
    rw [pathSlugsGas.eq_def, pathSlugsGas.eq_def]
    simp
  | succ n ih =>
    intro ts fuel₁ fuel₂ up hn h₁ h₂
    by_cases hp : up = []
    · subst hp
      rw [pathSlugsGas.eq_def, pathSlugsGas.eq_def]
      simp
    · have hpos : 0 < up.length := List.length_pos.mpr hp
      have hlt := @slugRest_lt ts up hp
      cases fuel₁ with
      | zero => omega
      | succ f₁ =>
      cases fuel₂ with
      | zero => omega
      | succ f₂ =>
        rw [pathSlugsGas.eq_def, pathSlugsGas.eq_def]
        simp only [if_neg hp]
        have hrec : pathSlugsGas ts f₁ (slugRest ts up) =
            pathSlugsGas ts f₂ (slugRest ts up) :=
          ih ts f₁ f₂ (slugRest ts up) (by omega) (by omega) (by omega)
        rw [hrec]

/-- `pathSlugs` at the exhausted path. -/
theorem pathSlugs_nil (ts : Bool) : pathSlugs ts [] = [] := rfl

/-- One-step unfolding of `pathSlugs` on a nonempty path. -/
theorem pathSlugs_cons {up : Str} (hp : up ≠ []) (ts : Bool) :
    pathSlugs ts up = slugOf up :: pathSlugs ts (slugRest ts up) := by
  have hpos : 0 < up.length := List.length_pos.mpr hp
  have hlt := @slugRest_lt ts up hp
  unfold pathSlugs
  cases hl : up.length with
  | zero => omega
  | succ n =>
    rw [pathSlugsGas.eq_def]
    simp only [if_neg hp]
    have hrec : pathSlugsGas ts n (slugRest ts up) =
        pathSlugsGas ts (slugRest ts up).length (slugRest ts up) :=
      pathSlugsGas_congr (slugRest ts up).length ts n (slugRest ts up).length
        (slugRest ts up) (le_refl _) (by omega) (le_refl _)
    rw [hrec]

/-- Segment-list form of `Route.getRoute`. -/
def insertSegs (m : Methods) (h : GoHandler) : Route → List (Str × Bool) → Route
  | route, [] => route.setHandlers (ainsertAll route.handlers m h)
  | route, (k, b) :: rest =>
    let r0 : Route :=
      match alookup route.routes k with
      | some r => r.setMethods (Methods.CopyFrom r.methods m)
      | none => Route.mk k b (CloneMethods m) [] [] []
    route.setRoutes (ainsert route.routes k (insertSegs m h r0 rest))

/-- Slug-list form of the `pathLoop`. -/
def walkSlugs (router : Router) (method : String) :
    Route → List Route → List (Str × Str) → List Str → Outcome
  | route, ancs, params, [] => router.finishAt method route ancs params
  | route, ancs, params, slug :: rest =>
    match alookup route.routes slug with
    | some ro =>
      if Methods.HasOrAll ro.methods method = false then
        router.finishAt method ro (route :: ancs) params
      else
        walkSlugs router method ro (route :: ancs)
          (if ro.param then ainsert params ro.name slug else params) rest
    | none =>
      match findParamChild route.routes method with
      | some ro =>
        walkSlugs router method ro (route :: ancs) (ainsert params ro.name slug) rest
      | none =>
        if slug = ['/'] then router.failUp method ancs params
        else router.failAt method route ancs params

/-- Registration factors through the segment view: on a well-formed pattern,
`Route.getRoute` is `insertSegs` on the parsed segment list, and the returned
node path is the list of segment keys. -/
theorem getRoute_eq_insertSegs : ∀ (n : Nat) (pat : Str) (segs : List (Str × Bool))
    (route : Route) (m : Methods) (h : GoHandler), pat.length ≤ n →
    parseSegs pat = some segs →
    route.getRoute pat m h = some (insertSegs m h route segs, segs.map Prod.fst) := by
  intro n
  induction n with
  | zero =>
    intro pat segs route m h hn hsegs
    have hp : pat = [] := List.eq_nil_of_length_eq_zero (by omega)
    subst hp
    rw [parseSegs_nil] at hsegs
    obtain rfl := Option.some.inj hsegs
    rw [getRoute_nil]
    rfl
  | succ n ih =>
    intro pat segs route m h hn hsegs
    by_cases hp : pat = []
    · subst hp
      rw [parseSegs_nil] at hsegs
      obtain rfl := Option.some.inj hsegs
      rw [getRoute_nil]
      rfl
    · have hpos : 0 < pat.length := List.length_pos.mpr hp
      have hlt := patRest_lt hp
      rw [parseSegs_cons hp] at hsegs
      rw [getRoute_cons hp]
      cases hsp : stepPat pat with
      | none => rw [hsp] at hsegs; exact absurd hsegs (by simp)
      | some kb =>
        obtain ⟨k, b⟩ := kb
        rw [hsp] at hsegs
        simp only [Option.map_eq_some'] at hsegs
        obtain ⟨segs', hsegs', rfl⟩ := hsegs
        cases hal : alookup route.routes k with
        | some r =>
          have hrec := ih (patRest pat) segs'
            (r.setMethods (Methods.CopyFrom r.methods m)) m h (by omega) hsegs'
          simp only [insertSegs, hal, hrec, List.map_cons]
        | none =>
          have hrec := ih (patRest pat) segs'
            (Route.mk k b (CloneMethods m) [] [] []) m h (by omega) hsegs'
          simp only [insertSegs, hal, hrec, List.map_cons]

/-- Registration rejects exactly the malformed patterns: on an unparsable
pattern, `Route.getRoute` panics (returns `none`). -/
theorem getRoute_eq_none : ∀ (n : Nat) (pat : Str) (route : Route) (m : Methods)
    (h : GoHandler), pat.length ≤ n → parseSegs pat = none →
    route.getRoute pat m h = none := by
  intro n
  induction n with
  | zero =>
    intro pat route m h hn hsegs
    have hp : pat = [] := List.eq_nil_of_length_eq_zero (by omega)
    subst hp
    rw [parseSegs_nil] at hsegs
    exact absurd hsegs (by simp)
  | succ n ih =>
    intro pat route m h hn hsegs
    by_cases hp : pat = []
    · subst hp
      rw [parseSegs_nil] at hsegs
      exact absurd hsegs (by simp)
    · have hpos : 0 < pat.length := List.length_pos.mpr hp
      have hlt := patRest_lt hp
      rw [parseSegs_cons hp] at hsegs
      rw [getRoute_cons hp]
      cases hsp : stepPat pat with
      | none => rfl
      | some kb =>
        obtain ⟨k, b⟩ := kb
        rw [hsp] at hsegs
        simp only [Option.map_eq_none'] at hsegs
        cases hal : alookup route.routes k with
        | some r =>
          have hrec := ih (patRest pat)
            (r.setMethods (Methods.CopyFrom r.methods m)) m h (by omega) hsegs
          simp only [hal, hrec]
        | none =>
          have hrec := ih (patRest pat)
            (Route.mk k b (CloneMethods m) [] [] []) m h (by omega) hsegs
          simp only [hal, hrec]

/-- Dispatch factors through the slug view: the `pathLoop` is `walkSlugs` on
the slug sequence of the remaining path. -/
theorem serveLoop_eq_walkSlugs : ∀ (n : Nat) (router : Router) (method : String)
    (ts : Bool) (route : Route) (ancs : List Route) (params : List (Str × Str))
    (up : Str), up.length ≤ n →
    router.serveLoop method ts route ancs params up =
      walkSlugs router method route ancs params (pathSlugs ts up) := by
  intro n
  induction n with
  | zero =>
    intro router method ts route ancs params up hn
    have hp : up = [] := List.eq_nil_of_length_eq_zero (by omega)
    subst hp
    rw [serveLoop_nil, pathSlugs_nil]
    rfl
  | succ n ih =>
    intro router method ts route ancs params up hn
    by_cases hp : up = []
    · subst hp
      rw [serveLoop_nil, pathSlugs_nil]
      rfl
    · have hpos : 0 < up.length := List.length_pos.mpr hp
      have hlt := @slugRest_lt ts up hp
      rw [serveLoop_cons hp, pathSlugs_cons hp]
      simp only [walkSlugs]
      have hrec : ∀ (ro : Route) (ps : List (Str × Str)),
          router.serveLoop method ts ro (route :: ancs) ps (slugRest ts up) =
          walkSlugs router method ro (route :: ancs) ps (pathSlugs ts (slugRest ts up)) := by
        intro ro ps
        exact ih router method ts ro (route :: ancs) ps (slugRest ts up) (by omega)
      cases alookup route.routes (slugOf up) with
      | some ro => simp only [hrec]
      | none => cases findParamChild route.routes method with
        | some ro => simp only [hrec]
        | none => rfl

/-! ### Association-list and method-set lemmas -/

theorem alookup_ainsert {α β : Type} [DecidableEq α] (L : List (α × β)) (k : α) (v : β)
    (k' : α) : alookup (ainsert L k v) k' = if k = k' then some v else alookup L k' := by
  induction L with
  | nil => simp [ainsert, alookup]
  | cons kv rest ih =>
    obtain ⟨k0, v0⟩ := kv
    by_cases h0 : k0 = k
    · subst h0
      have h0' : ∀ x : β, ainsert ((k0, x) :: rest) k0 v = (k0, v) :: rest := by
        intro x
        simp [ainsert]
      rw [h0' v0]
      simp only [alookup]
      by_cases h1 : k0 = k' <;> simp [h1]
    · have hstep : ainsert ((k0, v0) :: rest) k v = (k0, v0) :: ainsert rest k v := by
        simp [ainsert, h0]
      rw [hstep]
      simp only [alookup]
      rw [ih]
      by_cases h1 : k0 = k'
      · subst h1
        have h2 : ¬ k = k0 := fun hc => h0 hc.symm
        simp [h2]
      · simp [h1]

theorem ainsert_same {α β : Type} [DecidableEq α] (L : List (α × β)) (k : α) (v₁ v₂ : β) :
    ainsert (ainsert L k v₁) k v₂ = ainsert L k v₂ := by
  induction L with
  | nil => simp [ainsert]
  | cons kv rest ih =>
    obtain ⟨k0, v0⟩ := kv
    by_cases h0 : k0 = k
    · subst h0
      simp [ainsert]
    · simp [ainsert, if_neg h0, ih]

/-- The key list of an association list. -/
def akeys {α β : Type} (L : List (α × β)) : List α :=
  L.map Prod.fst

theorem akeys_ainsert {α β : Type} [DecidableEq α] (L : List (α × β)) (k : α) (v : β) :
    akeys (ainsert L k v) = if k ∈ akeys L then akeys L else akeys L ++ [k] := by
  induction L with
  | nil => simp [ainsert, akeys]
  | cons kv rest ih =>
    obtain ⟨k0, v0⟩ := kv
    by_cases h0 : k0 = k
    · subst h0
      simp [ainsert, akeys]
    · have hstep : ainsert ((k0, v0) :: rest) k v = (k0, v0) :: ainsert rest k v := by
        simp [ainsert, h0]
      rw [hstep]
      show k0 :: akeys (ainsert rest k v) = _
      rw [ih]
      by_cases hm : k ∈ akeys rest
      · have hm' : k ∈ akeys ((k0, v0) :: rest) := List.mem_cons_of_mem k0 hm
        rw [if_pos hm, if_pos hm']
        rfl
      · have hm' : k ∉ akeys ((k0, v0) :: rest) := by
          show ¬ k ∈ k0 :: akeys rest
          simp only [List.mem_cons]
          push_neg
          exact ⟨fun hc => h0 hc.symm, hm⟩
        rw [if_neg hm, if_neg hm']
        rfl

theorem alookup_none_of_not_mem_akeys {α β : Type} [DecidableEq α] {L : List (α × β)}
    {k : α} (h : k ∉ akeys L) : alookup L k = none := by
  induction L with
  | nil => rfl
  | cons kv rest ih =>
    obtain ⟨k0, v0⟩ := kv
    simp only [akeys, List.map_cons, List.mem_cons] at h
    push_neg at h
    simp only [alookup, if_neg (fun hc : k0 = k => h.1 hc.symm)]
    exact ih h.2

theorem aext {α β : Type} [DecidableEq α] : ∀ (L₁ L₂ : List (α × β)),
    akeys L₁ = akeys L₂ → (akeys L₁).Nodup → (∀ k, alookup L₁ k = alookup L₂ k) →
    L₁ = L₂ := by
  intro L₁
  induction L₁ with
  | nil =>
    intro L₂ hk _ _
    cases L₂ with
    | nil => rfl
    | cons kv rest => exact absurd hk (by simp [akeys])
  | cons kv rest ih =>
    intro L₂ hk hnd hl
    obtain ⟨k0, v0⟩ := kv
    cases L₂ with
    | nil => exact absurd hk (by simp [akeys])
    | cons kv₂ rest₂ =>
      obtain ⟨k₂, v₂⟩ := kv₂
      simp only [akeys, List.map_cons, List.cons.injEq] at hk
      obtain ⟨rfl, hkrest⟩ := hk
      have hv : v0 = v₂ := by
        have := hl k0
        simp only [alookup, if_pos rfl] at this
        exact Option.some.inj this
      subst hv
      simp only [akeys, List.map_cons, List.nodup_cons] at hnd
      have hrest : rest = rest₂ := by
        apply ih rest₂ hkrest hnd.2
        intro k
        by_cases hkk : k0 = k
        · subst hkk
          have h2 : k0 ∉ akeys rest₂ := by
            unfold akeys
            rw [← hkrest]
            exact hnd.1
          rw [alookup_none_of_not_mem_akeys hnd.1, alookup_none_of_not_mem_akeys h2]
        · have := hl k
          simpa only [alookup, if_neg hkk] using this
      rw [hrest]

theorem mem_foldl_set (ks : List String) (m : Methods) (s : String) :
    s ∈ ks.foldl Methods.set m ↔ s ∈ m ∨ s ∈ ks := by
  induction ks generalizing m with
  | nil => simp
  | cons a ks ih =>
    simp only [List.foldl_cons, List.mem_cons]
    rw [ih (Methods.set m a)]
    unfold Methods.set
    by_cases ha : a ∈ m
    · simp only [if_pos ha]
      constructor
      · rintro (h | h)
        · exact Or.inl h
        · exact Or.inr (Or.inr h)
      · rintro (h | rfl | h)
        · exact Or.inl h
        · exact Or.inl ha
        · exact Or.inr h
    · simp only [if_neg ha, List.mem_append, List.mem_singleton]
      tauto

theorem mem_CopyFrom (m other : Methods) (s : String) :
    s ∈ Methods.CopyFrom m other ↔ s ∈ m ∨ s ∈ other :=
  mem_foldl_set other m s

theorem mem_CloneMethods (m : Methods) (s : String) :
    s ∈ CloneMethods m ↔ s ∈ m := by
  unfold CloneMethods NewMethods
  rw [mem_foldl_set]
  simp

theorem foldl_set_of_sub {ks : List String} {m : Methods} (h : ∀ s ∈ ks, s ∈ m) :
    ks.foldl Methods.set m = m := by
  induction ks with
  | nil => rfl
  | cons a ks ih =>
    have ha : a ∈ m := h a (by simp)
    simp only [List.foldl_cons]
    unfold Methods.set
    rw [if_pos ha]
    exact ih (fun s hs => h s (by simp [hs]))

theorem CopyFrom_of_sub {m other : Methods} (h : ∀ s ∈ other, s ∈ m) :
    Methods.CopyFrom m other = m :=
  foldl_set_of_sub h

theorem HasOrAll_of_mem {m : Methods} {s : String} (h : s ∈ m) :
    Methods.HasOrAll m s = true := by
  simp [Methods.HasOrAll, h]

theorem alookup_ainsertAll {β : Type} (H : List (String × β)) (ks : List String) (v : β)
    (s : String) :
    alookup (ainsertAll H ks v) s = if s ∈ ks then some v else alookup H s := by
  induction ks generalizing H with
  | nil => simp [ainsertAll]
  | cons a ks ih =>
    show alookup (ainsertAll (ainsert H a v) ks v) s = _
    rw [ih (ainsert H a v), alookup_ainsert]
    by_cases hks : s ∈ ks
    · simp [hks]
    · by_cases ha : a = s
      · subst ha
        simp [hks]
      · have hmem : ¬ s ∈ a :: ks := by
          simp only [List.mem_cons]
          push_neg
          exact ⟨fun hc => ha hc.symm, hks⟩
        simp only [if_neg hks, if_neg ha, if_neg hmem]

theorem ainsert_append_of_none {α β : Type} [DecidableEq α] {L : List (α × β)} {k : α}
    (v : β) (h : alookup L k = none) : ainsert L k v = L ++ [(k, v)] := by
  induction L with
  | nil => rfl
  | cons kv rest ih =>
    obtain ⟨k0, v0⟩ := kv
    simp only [alookup] at h
    by_cases h0 : k0 = k
    · rw [if_pos h0] at h
      exact absurd h (by simp)
    · rw [if_neg h0] at h
      simp [ainsert, if_neg h0, ih h]

theorem alookup_append_none {α β : Type} [DecidableEq α] {L : List (α × β)} {k' k : α}
    (v : β) (h : alookup L k' = none) (hk : ¬ k = k') :
    alookup (L ++ [(k, v)]) k' = none := by
  induction L with
  | nil => simp [alookup, if_neg hk]
  | cons kv rest ih =>
    obtain ⟨k0, v0⟩ := kv
    simp only [alookup] at h ⊢
    by_cases h0 : k0 = k'
    · rw [if_pos h0] at h
      exact absurd h (by simp)
    · rw [if_neg h0] at h ⊢
      exact ih h

theorem nodup_akeys_ainsert {α β : Type} [DecidableEq α] {L : List (α × β)}
    (h : (akeys L).Nodup) (k : α) (v : β) : (akeys (ainsert L k v)).Nodup := by
  rw [akeys_ainsert]
  by_cases hm : k ∈ akeys L
  · rw [if_pos hm]
    exact h
  · rw [if_neg hm]
    rw [List.nodup_append]
    refine ⟨h, List.nodup_singleton k, ?_⟩
    intro a ha hc
    rw [List.mem_singleton] at hc
    exact hm (hc ▸ ha)

theorem akeys_ainsertAll {β : Type} (H : List (String × β)) (ks : List String) (v : β) :
    akeys (ainsertAll H ks v) = ks.foldl Methods.set (akeys H) := by
  induction ks generalizing H with
  | nil => rfl
  | cons a ks ih =>
    show akeys (ainsertAll (ainsert H a v) ks v) = _
    rw [ih (ainsert H a v), akeys_ainsert]
    rfl

theorem nodup_akeys_ainsertAll {β : Type} {H : List (String × β)}
    (h : (akeys H).Nodup) (ks : List String) (v : β) : (akeys (ainsertAll H ks v)).Nodup := by
  induction ks generalizing H with
  | nil => exact h
  | cons a ks ih => exact ih (nodup_akeys_ainsert h a v)

theorem ainsertAll_twice_nodup {β : Type} {H : List (String × β)}
    (hnd : (akeys H).Nodup) (ks : List String) (v₁ v₂ : β) :
    ainsertAll (ainsertAll H ks v₁) ks v₂ = ainsertAll H ks v₂ := by
  apply aext
  · rw [akeys_ainsertAll, akeys_ainsertAll, akeys_ainsertAll]
    apply foldl_set_of_sub
    intro s hs
    rw [mem_foldl_set]
    exact Or.inr hs
  · exact nodup_akeys_ainsertAll (nodup_akeys_ainsertAll hnd ks v₁) ks v₂
  · intro k
    rw [alookup_ainsertAll, alookup_ainsertAll, alookup_ainsertAll]
    by_cases hk : k ∈ ks
    · simp [hk]
    · simp [hk]

/-! ### Field bookkeeping for registration results -/

theorem setHandlers_setHandlers (r : Route) (h₁ h₂ : List (String × GoHandler)) :
    (r.setHandlers h₁).setHandlers h₂ = r.setHandlers h₂ := by
  cases r
  rfl

theorem setRoutes_setRoutes (r : Route) (rs₁ rs₂ : List (Str × Route)) :
    (r.setRoutes rs₁).setRoutes rs₂ = r.setRoutes rs₂ := by
  cases r
  rfl

theorem setMethods_self (r : Route) : r.setMethods r.methods = r := by
  cases r
  rfl

theorem setMethods_setHandlers_comm (r : Route) (m : Methods) (h : List (String × GoHandler)) :
    (r.setHandlers h).setMethods m = (r.setMethods m).setHandlers h := by
  cases r
  rfl

theorem insertSegs_name (m : Methods) (h : GoHandler) (r : Route) (segs : List (Str × Bool)) :
    (insertSegs m h r segs).name = r.name := by
  cases segs with
  | nil => cases r; rfl
  | cons kb rest => obtain ⟨k, b⟩ := kb; cases r; simp [insertSegs]

theorem insertSegs_param (m : Methods) (h : GoHandler) (r : Route) (segs : List (Str × Bool)) :
    (insertSegs m h r segs).param = r.param := by
  cases segs with
  | nil => cases r; rfl
  | cons kb rest => obtain ⟨k, b⟩ := kb; cases r; simp [insertSegs]

theorem insertSegs_methods (m : Methods) (h : GoHandler) (r : Route) (segs : List (Str × Bool)) :
    (insertSegs m h r segs).methods = r.methods := by
  cases segs with
  | nil => cases r; rfl
  | cons kb rest => obtain ⟨k, b⟩ := kb; cases r; simp [insertSegs]

theorem insertSegs_matchAny (m : Methods) (h : GoHandler) (r : Route) (segs : List (Str × Bool)) :
    (insertSegs m h r segs).matchAny = r.matchAny := by
  cases segs with
  | nil => cases r; rfl
  | cons kb rest => obtain ⟨k, b⟩ := kb; cases r; simp [insertSegs]

@[simp] theorem Route.matchAny_setMatchAny (r : Route) (ma : List (String × GoHandler)) :
    (r.setMatchAny ma).matchAny = ma := by cases r; rfl
@[simp] theorem Route.handlers_setHandlers (r : Route) (hs : List (String × GoHandler)) :
    (r.setHandlers hs).handlers = hs := by cases r; rfl
@[simp] theorem Route.routes_setRoutes (r : Route) (rs : List (Str × Route)) :
    (r.setRoutes rs).routes = rs := by cases r; rfl
@[simp] theorem Route.methods_setMethods (r : Route) (m : Methods) :
    (r.setMethods m).methods = m := by cases r; rfl
@[simp] theorem Route.name_setRoutes (r : Route) (rs : List (Str × Route)) :
    (r.setRoutes rs).name = r.name := by cases r; rfl
@[simp] theorem Route.name_setHandlers (r : Route) (hs : List (String × GoHandler)) :
    (r.setHandlers hs).name = r.name := by cases r; rfl
@[simp] theorem Route.name_setMethods (r : Route) (m : Methods) :
    (r.setMethods m).name = r.name := by cases r; rfl
@[simp] theorem Route.param_setRoutes (r : Route) (rs : List (Str × Route)) :
    (r.setRoutes rs).param = r.param := by cases r; rfl
@[simp] theorem Route.param_setHandlers (r : Route) (hs : List (String × GoHandler)) :
    (r.setHandlers hs).param = r.param := by cases r; rfl
@[simp] theorem Route.param_setMethods (r : Route) (m : Methods) :
    (r.setMethods m).param = r.param := by cases r; rfl
@[simp] theorem Route.methods_setRoutes (r : Route) (rs : List (Str × Route)) :
    (r.setRoutes rs).methods = r.methods := by cases r; rfl
@[simp] theorem Route.methods_setHandlers (r : Route) (hs : List (String × GoHandler)) :
    (r.setHandlers hs).methods = r.methods := by cases r; rfl
@[simp] theorem Route.matchAny_setRoutes (r : Route) (rs : List (Str × Route)) :
    (r.setRoutes rs).matchAny = r.matchAny := by cases r; rfl
@[simp] theorem Route.matchAny_setHandlers (r : Route) (hs : List (String × GoHandler)) :
    (r.setHandlers hs).matchAny = r.matchAny := by cases r; rfl
@[simp] theorem Route.matchAny_setMethods (r : Route) (m : Methods) :
    (r.setMethods m).matchAny = r.matchAny := by cases r; rfl
@[simp] theorem Route.routes_setHandlers (r : Route) (hs : List (String × GoHandler)) :
    (r.setHandlers hs).routes = r.routes := by cases r; rfl
@[simp] theorem Route.routes_setMethods (r : Route) (m : Methods) :
    (r.setMethods m).routes = r.routes := by cases r; rfl
@[simp] theorem Route.routes_setMatchAny (r : Route) (ma : List (String × GoHandler)) :
    (r.setMatchAny ma).routes = r.routes := by cases r; rfl
@[simp] theorem Route.handlers_setRoutes (r : Route) (rs : List (Str × Route)) :
    (r.setRoutes rs).handlers = r.handlers := by cases r; rfl
@[simp] theorem Route.handlers_setMethods (r : Route) (m : Methods) :
    (r.setMethods m).handlers = r.handlers := by cases r; rfl
@[simp] theorem Route.handlers_setMatchAny (r : Route) (ma : List (String × GoHandler)) :
    (r.setMatchAny ma).handlers = r.handlers := by cases r; rfl

/-! ### Claim C6: the three states of a fallback entry -/

/-- C6: a node's `matchAny` entry for a method has three distinguishable
states, and `getMatchAnyHandler` treats them distinctly: absent for both the
method and the wildcard key resolves to nothing; an explicit handler resolves
to that handler; an explicitly stored `nil` (as registered by
`MatchAny` = `HandleAny` with a `nil` handler) resolves to the node's own
endpoint handler for the method instead. -/
theorem c6_fallback_entry_three_states : ∀ (route : Route) (method : String),
    (alookup route.matchAny method = none → alookup route.matchAny MethodAll = none →
      route.getMatchAnyHandler method = none) ∧
    (∀ h : Nat, alookup route.matchAny method = some (some h) →
      route.getMatchAnyHandler method = some h) ∧
    (alookup route.matchAny method = some none →
      (alookup route.matchAny MethodAll).join = none →
      route.getMatchAnyHandler method = route.getHandler method) ∧
    (∀ m : Methods, method ∈ m →
      alookup (route.handleAnyHere m none).matchAny method = some none) := by
  intro route method
  refine ⟨?_, ?_, ?_, ?_⟩
  · intro h1 h2
    simp [Route.getMatchAnyHandler, h1, h2]
  · intro h h1
    simp [Route.getMatchAnyHandler, h1]
  · intro h1 h2
    rcases hall : alookup route.matchAny MethodAll with _ | ⟨_ | h⟩
    · simp [Route.getMatchAnyHandler, h1, hall]
    · simp [Route.getMatchAnyHandler, h1, hall]
    · rw [hall] at h2
      exact absurd h2 (by simp)
  · intro m hm
    simp only [Route.handleAnyHere, Route.matchAny_setMatchAny]
    rw [alookup_ainsertAll]
    simp [hm]

/-! ### Claim C8: the wildcard method key is reserved -/

/-- C8: for a method set constructed by adding only real (non-wildcard) method
strings via `NewMethods`/`Set`, the set does not contain the wildcard member,
and `HasOrAll` returns true exactly for the methods explicitly added. -/
theorem c8_wildcard_key_reserved : ∀ (ss : List String), (∀ s ∈ ss, s ≠ MethodAll) →
    Methods.Has (NewMethods ss) MethodAll = false ∧
    ∀ method : String, (Methods.HasOrAll (NewMethods ss) method = true ↔ method ∈ ss) := by
  intro ss hss
  have hmem : ∀ s : String, s ∈ NewMethods ss ↔ s ∈ ss := by
    intro s
    unfold NewMethods
    rw [mem_foldl_set]
    simp
  have hall : ¬ MethodAll ∈ NewMethods ss := by
    rw [hmem]
    intro hc
    exact hss MethodAll hc rfl
  refine ⟨by simp [Methods.Has, hall], ?_⟩
  intro method
  simp only [Methods.HasOrAll, Bool.or_eq_true, decide_eq_true_eq]
  rw [hmem]
  simp [hall]

/-! ### Claim C2: trailing-slash fallback precedence (concrete scenarios) -/

/-- The router of the precedence scenario: `/a` (GET, handler 1, `MatchAny` GET)
and `/a/` (GET, handler 2, `MatchAny` GET), chained exactly as
`router.Handle(...).MatchAny(...)` does, using the node paths returned by
registration. -/
def c2routerA : Option Router :=
  (Router.Handle NewRouter ("/a".toList) ["GET"] (some 1)).bind (fun rp =>
    (Router.Handle (rp.1.handleAnyAt ((rp.2).getD []) ["GET"] none)
        ("/a/".toList) ["GET"] (some 2)).map (fun rp2 =>
      rp2.1.handleAnyAt ((rp2.2).getD []) ["GET"] none))

/-- The router of the no-reverse scenario: only `/c` (GET, handler 3,
`MatchAny` GET); no `/c/` registration. -/
def c2routerB : Option Router :=
  (Router.Handle NewRouter ("/c".toList) ["GET"] (some 3)).map (fun rp =>
    rp.1.handleAnyAt ((rp.2).getD []) ["GET"] none)

/-- C2: with both `/a` and `/a/` registered and both configured as catch-alls,
a request `/a/b` that fails below them resolves to the slash-suffixed
registration's endpoint (handler 2), not to `/a`'s (handler 1); and the
reverse direction never holds: with only `/c` registered and configured as a
catch-all (its method-specific fallback entry is the explicit `nil` marker),
a request for `/c/` does not resolve to `/c` — it falls through to not-found. -/
theorem c2_trailing_slash_precedence :
    (c2routerA.map (fun r => r.ServeHTTP ("/a/b".toList) "GET") =
      some (Outcome.matched 2 [])) ∧
    (c2routerB.map (fun r => r.ServeHTTP ("/c/".toList) "GET") =
      some (Outcome.notFound none)) ∧
    ((c2routerB.bind (fun r => alookup r.base.routes ("c".toList))).map (fun n =>
        alookup n.matchAny ("GET")) = some (some none)) := by
  refine ⟨by decide, by decide, by decide⟩

/-! ### Claim C4: `/slug1` and `/slug1/` are distinct endpoints -/

/-- The router with `/slug1` (GET, handler 1) and `/slug1/` (GET, handler 2). -/
def c4router : Option Router :=
  (Router.Handle NewRouter ("/slug1".toList) ["GET"] (some 1)).bind (fun rp =>
    (Router.Handle rp.1 ("/slug1/".toList) ["GET"] (some 2)).map (fun rp2 => rp2.1))

/-- C4: a pattern ending in `/` and its non-slash counterpart occupy two
distinct trie nodes — the empty final segment is stored as a literal child
under the reserved `"/"` marker name — and dispatch sends `GET /slug1` to
handler 1 (A) and `GET /slug1/` to handler 2 (B). -/
theorem c4_trailing_slash_distinct_nodes :
    (c4router.map (fun r => (r.ServeHTTP ("/slug1".toList) "GET",
        r.ServeHTTP ("/slug1/".toList) "GET")) =
      some (Outcome.matched 1 [], Outcome.matched 2 [])) ∧
    ((c4router.bind (fun r => alookup r.base.routes ("slug1".toList))).map (fun n =>
        (n.param, alookup n.handlers ("GET"))) = some (false, some (some 1))) ∧
    ((c4router.bind (fun r => alookup r.base.routes ("slug1".toList))).bind (fun n =>
        alookup n.routes ['/'])).map (fun sl =>
        (sl.name, sl.param, alookup sl.handlers ("GET"))) =
      some (['/'], false, some (some 2)) := by
  refine ⟨by decide, by decide, by decide⟩

/-! ### Claim C3, counterexample part: the fallback walk is not inclusive of a
`"/"`-named starting node -/

/-- A router where the `"/"` node under `/x/` has an explicit method-specific
fallback handler (5): `/x//y` (GET, handler 1) creates `x → "/" → y`;
`/x/` (POST, handler 2) reuses the `"/"` node, whose returned path is then
given an explicit GET fallback handler 5. -/
def c3router : Option Router :=
  (Router.Handle NewRouter ("/x//y".toList) ["GET"] (some 1)).bind (fun rp =>
    (Router.Handle rp.1 ("/x/".toList) ["POST"] (some 2)).map (fun rp2 =>
      rp2.1.handleAnyAt ((rp2.2).getD []) ["GET"] (some 5)))

/-- C3 counterexample: dispatching `GET /x/` ends at the `"/"` node (it has no
GET endpoint handler), whose own method-specific fallback entry explicitly
holds handler 5 — yet the dispatcher answers not-found, because the upward
fallback walk from a `"/"`-named node skips both the node itself and its
parent.  The claim's walk ("upward through parent links inclusive of the
starting node, method-specific entry first") would have produced handler 5. -/
theorem c3_counterexample :
    (c3router.map (fun r => r.ServeHTTP ("/x/".toList) "GET") =
      some (Outcome.notFound none)) ∧
    (((c3router.bind (fun r => alookup r.base.routes ("x".toList))).bind (fun x =>
        alookup x.routes ['/'])).map (fun sl => alookup sl.matchAny ("GET")) =
      some (some (some 5))) ∧
    (Outcome.notFound (none : GoHandler) ≠ Outcome.matched 5 []) := by
  refine ⟨by decide, by decide, by decide⟩

/-! ### Claim C5, counterexample part: two parameter children can coexist -/

/-- A router registering two parameter segments with different capture names
at the same depth: `/{a}` for GET (handler 1) and `/{b}` for POST (handler 2). -/
def c5router : Option Router :=
  (Router.Handle NewRouter ("/{a}".toList) ["GET"] (some 1)).bind (fun rp =>
    (Router.Handle rp.1 ("/{b}".toList) ["POST"] (some 2)).map (fun rp2 => rp2.1))

/-- C5 counterexample: the second registration is neither rejected nor merged;
the root node ends up with two children whose `isParam` flag is set (keyed by
the two capture names), violating "at most one parameter child per node". -/
theorem c5_counterexample :
    (c5router.map (fun r => r.base.routes.countP (fun kc => kc.2.param)) = some 2) ∧
    ¬ (2 ≤ 1) := by
  refine ⟨by decide, by decide⟩

/-! ### Claim C1, counterexample part: a literal sibling shadows a parameter
pattern -/

/-- A router with a literal pattern `/foo` registered for POST only (handler 1)
and a parameter pattern `/{id}` registered for GET (handler 9). -/
def c1router : Option Router :=
  (Router.Handle NewRouter ("/foo".toList) ["POST"] (some 1)).bind (fun rp =>
    (Router.Handle rp.1 ("/{id}".toList) ["GET"] (some 9)).map (fun rp2 => rp2.1))

/-- C1 counterexample: `GET /foo` exactly matches the shape of the registered
pattern `/{id}` (a single parameter segment) with GET in its method set, so the
claim demands handler 9 with capture `id = foo` — but the dispatcher tries the
literal child `foo` first, which rejects GET, and the request falls through to
not-found. -/
theorem c1_counterexample :
    (c1router.map (fun r => r.ServeHTTP ("/foo".toList) "GET") =
      some (Outcome.notFound none)) ∧
    (parseSegs (stripLead ("/{id}".toList)) = some [("id".toList, true)]) ∧
    (Outcome.notFound (none : GoHandler) ≠
      Outcome.matched 9 [("id".toList, "foo".toList)]) := by
  refine ⟨by decide, by decide, by decide⟩

/-! ### Claim C3, amended part: deterministic fallback resolution -/

theorem matchAnyChain_eq_findSome : ∀ (rs : List Route) (method : String),
    matchAnyChain rs method = rs.findSome? (fun r => r.getMatchAnyHandler method) := by
  intro rs method
  induction rs with
  | nil => rfl
  | cons r rest ih =>
    simp only [matchAnyChain, List.findSome?]
    cases r.getMatchAnyHandler method with
    | some h => rfl
    | none => exact ih

/-- C3 (amended): dispatch always resolves deterministically.  Ancestor
fallback from a non-`"/"` node consults the node's `"/"` child's fallback
first and then walks upward through parent links inclusive of the starting
node, returning the first non-empty resolution; from a `"/"`-named node the
walk skips the node and its parent, starting at the grandparent.  A final node
with no usable endpoint handler resolves exactly like an in-loop failure; a
failed walk serves the method-specific default, else the wildcard default,
else the built-in not-found behavior. -/
theorem c3_fallback_resolution :
    (∀ (route : Route) (ancs : List Route) (method : String),
      getParentMatch route ancs method =
        if route.name = ['/'] then
          (ancs.drop 1).findSome? (fun r => r.getMatchAnyHandler method)
        else
          match (alookup route.routes ['/']).bind
              (fun r => r.getMatchAnyHandler method) with
          | some h => some h
          | none => (route :: ancs).findSome? (fun r => r.getMatchAnyHandler method)) ∧
    (∀ (router : Router) (method : String) (route : Route) (ancs : List Route)
      (params : List (Str × Str)), route.getHandler method = none →
      router.finishAt method route ancs params = router.failAt method route ancs params) ∧
    (∀ (router : Router) (method : String) (route : Route) (ancs : List Route)
      (params : List (Str × Str)), getParentMatch route ancs method = none →
      router.failAt method route ancs params = router.serveDefault method) ∧
    (∀ (router : Router) (method : String),
      router.serveDefault method =
        match (alookup router.defaultHandlers method).join,
            (alookup router.defaultHandlers MethodAll).join with
        | some h, _ => Outcome.defaulted h
        | none, some h => Outcome.defaulted h
        | none, none => Outcome.notFound router.notFoundHandler) := by
  refine ⟨?_, ?_, ?_, ?_⟩
  · intro route ancs method
    unfold getParentMatch
    by_cases hn : route.name = ['/']
    · rw [if_pos hn]
      simp only [hn, ne_eq, not_true_eq_false, if_false, matchAnyChain_eq_findSome]
    · rw [if_neg hn]
      simp only [ne_eq, hn, not_false_eq_true, if_true]
      cases hsl : alookup route.routes ['/'] with
      | none => simp [matchAnyChain_eq_findSome]
      | some r =>
        simp only [Option.bind_some]
        cases hg : r.getMatchAnyHandler method with
        | some h => simp [hg]
        | none => simp [hg, matchAnyChain_eq_findSome]
  · intro router method route ancs params hgh
    unfold Router.finishAt Router.failAt
    rw [hgh]
  · intro router method route ancs params hpm
    unfold Router.failAt
    rw [hpm]
  · intro router method
    unfold Router.serveDefault Router.getDefaultHandler
    cases h1 : (alookup router.defaultHandlers method).join with
    | some h => rfl
    | none =>
      cases h2 : (alookup router.defaultHandlers MethodAll).join with
      | some h => rfl
      | none => rfl

/-- Witness for `c3_fallback_resolution`: a concrete instantiation of the
conditional parts. -/
theorem c3_fallback_resolution_witness :
    NewRouter.finishAt ("GET") (Route.mk [] false [] [] [] []) [] [] =
      NewRouter.failAt ("GET") (Route.mk [] false [] [] [] []) [] [] ∧
    NewRouter.failAt ("GET") (Route.mk [] false [] [] [] []) [] [] =
      NewRouter.serveDefault ("GET") :=
  ⟨c3_fallback_resolution.2.1 NewRouter ("GET") (Route.mk [] false [] [] [] []) [] []
      (by decide),
    c3_fallback_resolution.2.2.1 NewRouter ("GET") (Route.mk [] false [] [] [] []) [] []
      (by decide)⟩

/-! ### Claim C5, amended part: parameter children are keyed by capture name
and a second parameter name at the same depth is silently added -/

theorem nextSlug_eq_none {p : Str} (h : '/' ∉ p) : nextSlug p = none := by
  induction p with
  | nil => rfl
  | cons c rest ih =>
    simp only [List.mem_cons] at h
    push_neg at h
    simp only [nextSlug, if_neg (fun hc : c = '/' => h.1 hc.symm)]
    rw [ih h.2]
    rfl

/-- `stepPat` on a segment of the form `{name}` (with a slash-free name)
yields the parameter key `name` and an empty pattern remainder. -/
theorem stepPat_param_seg (n : Str) (hn : '/' ∉ n) :
    stepPat ('{' :: (n ++ ['}'])) = some (n, true) ∧
    patRest ('{' :: (n ++ ['}'])) = [] := by
  have hstrip : stripLead ('{' :: (n ++ ['}'])) = '{' :: (n ++ ['}']) := by
    simp [stripLead]
  have hns : nextSlug ('{' :: (n ++ ['}'])) = none := by
    apply nextSlug_eq_none
    simp only [List.mem_cons, List.mem_append, List.mem_singleton]
    push_neg
    refine ⟨by decide, fun hc => absurd hc hn, by decide⟩
  constructor
  · unfold stepPat patSlug0 segSlug0
    rw [hstrip, hns]
    simp only [Option.getD_none, List.take_length]
    have hne : ¬ ('{' :: (n ++ ['}'])) = [] := by simp
    rw [if_neg hne]
    have hhead : ('{' :: (n ++ ['}'])).head? = some '{' := rfl
    rw [if_pos hhead]
    have hlast : ('{' :: (n ++ ['}'])).getLast? = some '}' := by
      rw [show ('{' :: (n ++ ['}'])) = (('{' :: n) ++ ['}']) from rfl]
      rw [List.getLast?_concat]
    rw [if_pos hlast]
    have hdrop : (('{' :: (n ++ ['}'])).drop 1).dropLast = n := by
      simp
    rw [hdrop]
  · unfold patRest segRest
    rw [hstrip, hns]
    simp

/-- C5 (amended): registration keys each parameter child by its capture name:
registering `/{n₁}` and then `/{n₂}` with distinct slash-free names both
succeed (nothing is rejected) and produce two distinct children of the root,
each with `isParam` set (nothing is merged) — the "at most one parameter child
per node" property is not enforced at registration time. -/
theorem c5_param_children_not_unique :
    ∀ (n₁ n₂ : Str) (m₁ m₂ : Methods) (h₁ h₂ : GoHandler),
    '/' ∉ n₁ → '/' ∉ n₂ → n₁ ≠ n₂ →
    ∃ r₁ r₂ : Router,
      Router.Handle NewRouter ('/' :: '{' :: (n₁ ++ ['}'])) m₁ h₁ = some (r₁, some [n₁]) ∧
      Router.Handle r₁ ('/' :: '{' :: (n₂ ++ ['}'])) m₂ h₂ = some (r₂, some [n₂]) ∧
      ∃ c₁ c₂ : Route, r₂.base.routes = [(n₁, c₁), (n₂, c₂)] ∧
        c₁.param = true ∧ c₂.param = true := by
  intro n₁ n₂ m₁ m₂ h₁ h₂ hn₁ hn₂ hne
  obtain ⟨hsp₁, hpr₁⟩ := stepPat_param_seg n₁ hn₁
  obtain ⟨hsp₂, hpr₂⟩ := stepPat_param_seg n₂ hn₂
  have hpne₁ : ¬ ('/' :: '{' :: (n₁ ++ ['}'])) = [] := by simp
  have hpne₂ : ¬ ('/' :: '{' :: (n₂ ++ ['}'])) = [] := by simp
  have hone₁ : ¬ ('/' :: '{' :: (n₁ ++ ['}'])) = ['/'] := by simp
  have hone₂ : ¬ ('/' :: '{' :: (n₂ ++ ['}'])) = ['/'] := by simp
  have hstrip₁ : stripLead ('/' :: '{' :: (n₁ ++ ['}'])) = '{' :: (n₁ ++ ['}']) := by
    simp [stripLead]
  have hstrip₂ : stripLead ('/' :: '{' :: (n₂ ++ ['}'])) = '{' :: (n₂ ++ ['}']) := by
    simp [stripLead]
  have hstne₁ : ('{' :: (n₁ ++ ['}'])) ≠ [] := by simp
  have hstne₂ : ('{' :: (n₂ ++ ['}'])) ≠ [] := by simp
  set node₁ : Route :=
    (Route.mk n₁ true (CloneMethods m₁) [] [] []).setHandlers (ainsertAll [] m₁ h₁) with hnode₁
  set node₂ : Route :=
    (Route.mk n₂ true (CloneMethods m₂) [] [] []).setHandlers (ainsertAll [] m₂ h₂) with hnode₂
  set base₁ : Route := NewRouter.base.setRoutes [(n₁, node₁)] with hbase₁
  set base₂ : Route := base₁.setRoutes [(n₁, node₁), (n₂, node₂)] with hbase₂
  have hg₁ : NewRouter.base.getRoute ('{' :: (n₁ ++ ['}'])) m₁ h₁ = some (base₁, [n₁]) := by
    rw [getRoute_cons hstne₁, hsp₁]
    have hlk : alookup NewRouter.base.routes n₁ = none := rfl
    simp only [hlk, hpr₁, getRoute_nil, Route.handlers_mk]
    rw [hbase₁, hnode₁]
    rfl
  have hg₂ : base₁.getRoute ('{' :: (n₂ ++ ['}'])) m₂ h₂ = some (base₂, [n₂]) := by
    rw [getRoute_cons hstne₂, hsp₂]
    have hlk : alookup base₁.routes n₂ = none := by
      rw [hbase₁, Route.routes_setRoutes]
      simp only [alookup, if_neg hne]
    have hains : ainsert base₁.routes n₂ node₂ = [(n₁, node₁), (n₂, node₂)] := by
      rw [hbase₁, Route.routes_setRoutes]
      simp [ainsert, hne]
    simp only [hlk, hpr₂, getRoute_nil, Route.handlers_mk]
    rw [← hnode₂, hains]
  have hH₁ : Router.Handle NewRouter ('/' :: '{' :: (n₁ ++ ['}'])) m₁ h₁ =
      some (⟨base₁, [], none⟩, some [n₁]) := by
    unfold Router.Handle
    rw [if_neg hpne₁, if_neg hone₁, hstrip₁, hg₁]
    rfl
  have hH₂ : Router.Handle (⟨base₁, [], none⟩ : Router) ('/' :: '{' :: (n₂ ++ ['}'])) m₂ h₂ =
      some (⟨base₂, [], none⟩, some [n₂]) := by
    unfold Router.Handle
    rw [if_neg hpne₂, if_neg hone₂, hstrip₂]
    show (match base₁.getRoute ('{' :: (n₂ ++ ['}'])) m₂ h₂ with
      | some (b', path) => some ((⟨b', [], none⟩ : Router), some path)
      | none => none) = _
    rw [hg₂]
  refine ⟨⟨base₁, [], none⟩, ⟨base₂, [], none⟩, hH₁, hH₂, node₁, node₂, ?_, ?_, ?_⟩
  · rw [hbase₂, Route.routes_setRoutes]
  · rw [hnode₁, Route.param_setHandlers, Route.param_mk]
  · rw [hnode₂, Route.param_setHandlers, Route.param_mk]

/-- Witness for `c5_param_children_not_unique` at names `a` and `b`. -/
theorem c5_param_children_not_unique_witness :
    ∃ r₁ r₂ : Router,
      Router.Handle NewRouter ('/' :: '{' :: ("a".toList ++ ['}'])) ["GET"] (some 1) =
        some (r₁, some ["a".toList]) ∧
      Router.Handle r₁ ('/' :: '{' :: ("b".toList ++ ['}'])) ["POST"] (some 2) =
        some (r₂, some ["b".toList]) ∧
      ∃ c₁ c₂ : Route, r₂.base.routes = [("a".toList, c₁), ("b".toList, c₂)] ∧
        c₁.param = true ∧ c₂.param = true :=
  c5_param_children_not_unique ("a".toList) ("b".toList) ["GET"] ["POST"] (some 1) (some 2)
    (by decide) (by decide) (by decide)

/-! ### Claim C7: malformed parameter braces panic at registration time -/

/-- Go's `strings.Split(s, "/")`: the raw `/`-delimited segments. -/
def goSplit : Str → List Str
  | [] => [[]]
  | c :: rest =>
    if c = '/' then [] :: goSplit rest
    else
      match goSplit rest with
      | s :: ss => (c :: s) :: ss
      | [] => [[c]]

theorem goSplit_ne_nil (q : Str) : goSplit q ≠ [] := by
  cases q with
  | nil => simp [goSplit]
  | cons c rest =>
    by_cases hc : c = '/'
    · simp [goSplit, hc]
    · simp only [goSplit, if_neg hc]
      cases goSplit rest with
      | nil => simp
      | cons s ss => simp

theorem nextSlug_drop {q : Str} {l : Nat} (h : nextSlug q = some l) :
    q.drop l = '/' :: q.drop (l + 1) := by
  induction q generalizing l with
  | nil => simp [nextSlug] at h
  | cons c rest ih =>
    simp only [nextSlug] at h
    split at h
    · rename_i hc
      obtain rfl := Option.some.inj h
      subst hc
      simp
    · rw [Option.map_eq_some'] at h
      obtain ⟨a, ha, rfl⟩ := h
      simp only [List.drop_succ_cons]
      exact ih ha

/-- One step of Go splitting: the first raw segment, then the split of the
text after the first slash. -/
theorem goSplit_step : ∀ (q : Str), q ≠ [] →
    goSplit q = segSlug0 q ::
      (match nextSlug q with
       | none => []
       | some l => goSplit (q.drop (l + 1))) := by
  intro q
  induction q with
  | nil => intro h; exact absurd rfl h
  | cons c rest ih =>
    intro _
    by_cases hc : c = '/'
    · subst hc
      have hns : nextSlug ('/' :: rest) = some 0 := by simp [nextSlug]
      rw [hns]
      simp only [goSplit, if_pos rfl]
      have : segSlug0 ('/' :: rest) = [] := by
        unfold segSlug0
        rw [hns]
        rfl
      rw [this]
      rfl
    · simp only [goSplit, if_neg hc]
      rcases hns : nextSlug rest with _ | l
      · have hq : nextSlug (c :: rest) = none := by
          simp [nextSlug, hc, hns]
        rw [hq]
        have hs0 : segSlug0 (c :: rest) = c :: rest := by
          unfold segSlug0
          rw [hq]
          simp
        rw [hs0]
        by_cases hrne : rest = []
        · subst hrne
          simp [goSplit]
        · have hrr := ih hrne
          rw [hns] at hrr
          have hs0r : segSlug0 rest = rest := by
            unfold segSlug0
            rw [hns]
            simp
          rw [hs0r] at hrr
          rw [hrr]
      · have hq : nextSlug (c :: rest) = some (l + 1) := by
          simp [nextSlug, hc, hns]
        rw [hq]
        have hrne : rest ≠ [] := by
          intro hr
          rw [hr] at hns
          simp [nextSlug] at hns
        rw [ih hrne, hns]
        have hs0 : segSlug0 (c :: rest) = c :: segSlug0 rest := by
          unfold segSlug0
          rw [hq, hns]
          simp
        rw [hs0]
        rfl

/-- A nonempty raw segment survives the leading-slash strip. -/
theorem goSplit_stripLead_mem {bad q : Str} (hmem : bad ∈ goSplit q) (hne : bad ≠ []) :
    bad ∈ goSplit (stripLead q) := by
  cases q with
  | nil =>
    simp [goSplit] at hmem
    exact absurd hmem hne
  | cons c rest =>
    by_cases hc : c = '/'
    · subst hc
      have hstep : goSplit ('/' :: rest) = [] :: goSplit rest := by
        simp [goSplit]
      rw [hstep, List.mem_cons] at hmem
      rcases hmem with rfl | hmem
      · exact absurd rfl hne
      · simpa [stripLead] using hmem
    · have : stripLead (c :: rest) = c :: rest := by
        simp [stripLead, hc]
      rw [this]
      exact hmem

/-- A raw segment opening a brace without closing it makes `stepPat` panic. -/
theorem stepPat_malformed {q : Str} (hh : (patSlug0 q).head? = some '{')
    (hl : (patSlug0 q).getLast? ≠ some '}') : stepPat q = none := by
  have hne : ¬ patSlug0 q = [] := by
    intro hc
    rw [hc] at hh
    exact absurd hh (by simp)
  show (let slug0 := patSlug0 q
    let slug1 := if slug0 = [] then ['/'] else slug0
    if slug1.head? = some '{' then
      if slug0.getLast? = some '}' then some ((slug0.drop 1).dropLast, true) else none
    else some (slug1, false)) = none
  simp only
  rw [if_neg hne, if_pos hh, if_neg hl]

theorem parseSegs_malformed : ∀ (n : Nat) (q : Str), q.length ≤ n →
    (∃ bad ∈ goSplit q, bad.head? = some '{' ∧ bad.getLast? ≠ some '}') →
    parseSegs q = none := by
  intro n
  induction n with
  | zero =>
    intro q hn hbad
    have hq : q = [] := List.eq_nil_of_length_eq_zero (by omega)
    subst hq
    obtain ⟨bad, hmem, hh, -⟩ := hbad
    simp only [goSplit, List.mem_singleton] at hmem
    subst hmem
    exact absurd hh (by simp)
  | succ n ih =>
    intro q hn hbad
    obtain ⟨bad, hmem, hh, hl⟩ := hbad
    by_cases hq : q = []
    · subst hq
      simp only [goSplit, List.mem_singleton] at hmem
      subst hmem
      exact absurd hh (by simp)
    · have hbadne : bad ≠ [] := by
        intro hc
        rw [hc] at hh
        exact absurd hh (by simp)
      have hmem' : bad ∈ goSplit (stripLead q) := goSplit_stripLead_mem hmem hbadne
      by_cases hq' : stripLead q = []
      · rw [hq'] at hmem'
        simp only [goSplit, List.mem_singleton] at hmem'
        exact absurd (hmem' ▸ hh) (by simp)
      · rw [goSplit_step (stripLead q) hq'] at hmem'
        have hlt := patRest_lt hq
        rcases hns : nextSlug (stripLead q) with _ | l
        · rw [hns] at hmem'
          simp only [List.mem_singleton] at hmem'
          subst hmem'
          rw [parseSegs_cons hq, stepPat_malformed hh hl]
        · rw [hns] at hmem'
          simp only [List.mem_cons] at hmem'
          rcases hmem' with rfl | hmem'
          · rw [parseSegs_cons hq, stepPat_malformed hh hl]
          · have hll := nextSlug_lt hns
            have hrest : patRest q = (stripLead q).drop l := by
              unfold patRest segRest
              rw [hns]
              simp only [Option.getD_some]
              rw [if_neg (by omega)]
            have hdl : (stripLead q).drop l = '/' :: (stripLead q).drop (l + 1) :=
              nextSlug_drop hns
            have hbad' : ∃ b ∈ goSplit (patRest q),
                b.head? = some '{' ∧ b.getLast? ≠ some '}' := by
              refine ⟨bad, ?_, hh, hl⟩
              rw [hrest, hdl]
              have hgs : goSplit ('/' :: (stripLead q).drop (l + 1)) =
                  [] :: goSplit ((stripLead q).drop (l + 1)) := by
                simp [goSplit]
              rw [hgs]
              exact List.mem_cons_of_mem [] hmem'
            have := ih (patRest q) (by omega) hbad'
            rw [parseSegs_cons hq]
            cases stepPat q with
            | none => rfl
            | some kb =>
              simp only [this]
              rfl

/-- C7: for every pattern containing a raw `/`-delimited segment that starts
with `{` but does not end with `}`, registration fails fatally (the modelled
panic) during the `Router.Handle` call itself — never deferred to dispatch. -/
theorem c7_malformed_pattern_panics :
    ∀ (router : Router) (pattern : Str) (m : Methods) (h : GoHandler),
    (∃ bad ∈ goSplit (stripLead pattern), bad.head? = some '{' ∧
      bad.getLast? ≠ some '}') →
    Router.Handle router pattern m h = none := by
  intro router pattern m h hbad
  have hpat : pattern ≠ [] := by
    intro hc
    subst hc
    obtain ⟨bad, hmem, hh, -⟩ := hbad
    simp only [stripLead, goSplit, List.mem_singleton] at hmem
    rw [hmem] at hh
    exact absurd hh (by simp)
  have hone : pattern ≠ ['/'] := by
    intro hc
    subst hc
    obtain ⟨bad, hmem, hh, -⟩ := hbad
    simp only [stripLead, goSplit, List.mem_singleton] at hmem
    rw [hmem] at hh
    exact absurd hh (by simp)
  have hsegs : parseSegs (stripLead pattern) = none := by
    obtain ⟨bad, hmem, hh, hl⟩ := hbad
    have hbadne : bad ≠ [] := by
      intro hc
      rw [hc] at hh
      exact absurd hh (by simp)
    have hmem' : bad ∈ goSplit (stripLead (stripLead pattern)) :=
      goSplit_stripLead_mem hmem hbadne
    exact parseSegs_malformed (stripLead pattern).length (stripLead pattern) (le_refl _)
      ⟨bad, hmem, hh, hl⟩
  have hgr := getRoute_eq_none (stripLead pattern).length (stripLead pattern)
    router.base m h (le_refl _) hsegs
  unfold Router.Handle
  rw [if_neg hpat, if_neg hone, hgr]

/-- Witness for `c7_malformed_pattern_panics` at the pattern `/a/{b`. -/
theorem c7_malformed_pattern_panics_witness :
    Router.Handle NewRouter ("/a/\x7bb".toList) ["GET"] (some 1) = none :=
  c7_malformed_pattern_panics NewRouter ("/a/\x7bb".toList) ["GET"] (some 1)
    ⟨"\x7bb".toList, by decide, by decide, by decide⟩

/-! ### Claim C9: re-registering the same pattern and methods overwrites -/

theorem setMethods_setMethods (r : Route) (m₁ m₂ : Methods) :
    (r.setMethods m₁).setMethods m₂ = r.setMethods m₂ := by
  cases r
  rfl

theorem CopyFrom_CloneMethods (m : Methods) :
    Methods.CopyFrom (CloneMethods m) m = CloneMethods m := by
  apply CopyFrom_of_sub
  intro s hs
  rw [mem_CloneMethods]
  exact hs

theorem CopyFrom_CopyFrom (m₀ m : Methods) :
    Methods.CopyFrom (Methods.CopyFrom m₀ m) m = Methods.CopyFrom m₀ m := by
  apply CopyFrom_of_sub
  intro s hs
  rw [mem_CopyFrom]
  exact Or.inr hs

/-- Re-running a fresh-spine insertion with a new handler rewrites the spine
in place: no new nodes, handlers replaced. -/
theorem insertSegs_twice : ∀ (segs : List (Str × Bool)) (route : Route) (m : Methods)
    (h₁ h₂ : GoHandler), route.routes = [] → route.handlers = [] →
    insertSegs m h₂ (insertSegs m h₁ route segs) segs = insertSegs m h₂ route segs := by
  intro segs
  induction segs with
  | nil =>
    intro route m h₁ h₂ hro hha
    show (route.setHandlers (ainsertAll route.handlers m h₁)).setHandlers
        (ainsertAll (route.setHandlers (ainsertAll route.handlers m h₁)).handlers m h₂) =
      route.setHandlers (ainsertAll route.handlers m h₂)
    rw [Route.handlers_setHandlers, setHandlers_setHandlers, hha,
      ainsertAll_twice_nodup (by simp [akeys])]
  | cons kb rest ih =>
    intro route m h₁ h₂ hro hha
    obtain ⟨k, b⟩ := kb
    have hlk : alookup route.routes k = none := by
      rw [hro]
      rfl
    have hfresh : (Route.mk k b (CloneMethods m) [] [] [] : Route).routes = [] := rfl
    have hfresh2 : (Route.mk k b (CloneMethods m) [] [] [] : Route).handlers = [] := rfl
    set c₁ : Route := insertSegs m h₁ (Route.mk k b (CloneMethods m) [] [] []) rest with hc₁
    have hstep₁ : insertSegs m h₁ route ((k, b) :: rest) =
        route.setRoutes (ainsert route.routes k c₁) := by
      show (let r0 : Route :=
          match alookup route.routes k with
          | some r => r.setMethods (Methods.CopyFrom r.methods m)
          | none => Route.mk k b (CloneMethods m) [] [] []
        route.setRoutes (ainsert route.routes k (insertSegs m h₁ r0 rest))) = _
      simp only [hlk]
    have hroutes₁ : (route.setRoutes (ainsert route.routes k c₁)).routes = [(k, c₁)] := by
      rw [Route.routes_setRoutes, hro]
      rfl
    have hlk₂ : alookup (route.setRoutes (ainsert route.routes k c₁)).routes k = some c₁ := by
      rw [hroutes₁]
      simp [alookup]
    have hcm : c₁.methods = CloneMethods m := by
      rw [hc₁, insertSegs_methods]
      rfl
    have hr0' : c₁.setMethods (Methods.CopyFrom c₁.methods m) = c₁ := by
      rw [hcm, CopyFrom_CloneMethods, ← hcm, setMethods_self]
    have hstep₂ : insertSegs m h₂ (route.setRoutes (ainsert route.routes k c₁))
        ((k, b) :: rest) =
        (route.setRoutes (ainsert route.routes k c₁)).setRoutes
          (ainsert [(k, c₁)] k (insertSegs m h₂ c₁ rest)) := by
      show (let r0 : Route :=
          match alookup (route.setRoutes (ainsert route.routes k c₁)).routes k with
          | some r => r.setMethods (Methods.CopyFrom r.methods m)
          | none => Route.mk k b (CloneMethods m) [] [] []
        (route.setRoutes (ainsert route.routes k c₁)).setRoutes
          (ainsert (route.setRoutes (ainsert route.routes k c₁)).routes k
            (insertSegs m h₂ r0 rest))) = _
      simp only [hlk₂, hr0', hroutes₁, alookup, if_pos rfl, if_true]
    have hstep₃ : insertSegs m h₂ route ((k, b) :: rest) =
        route.setRoutes (ainsert route.routes k
          (insertSegs m h₂ (Route.mk k b (CloneMethods m) [] [] []) rest)) := by
      show (let r0 : Route :=
          match alookup route.routes k with
          | some r => r.setMethods (Methods.CopyFrom r.methods m)
          | none => Route.mk k b (CloneMethods m) [] [] []
        route.setRoutes (ainsert route.routes k (insertSegs m h₂ r0 rest))) = _
      simp only [hlk]
    rw [hstep₁, hstep₂, hstep₃, setRoutes_setRoutes]
    rw [hc₁, ih (Route.mk k b (CloneMethods m) [] [] []) m h₁ h₂ hfresh hfresh2]
    rw [hro]
    show route.setRoutes (ainsert [(k, c₁)] k
      (insertSegs m h₂ (Route.mk k b (CloneMethods m) [] [] []) rest)) = _
    simp [ainsert]

/-- C9: registering the same pattern with the same method set twice leaves the
router exactly as if only the second registration had happened — one handler
(the most recent) per (node, method) pair at the terminal node, and no
additional nodes. -/
theorem c9_reregistration_overwrites :
    ∀ (pattern : Str) (m : Methods) (h₁ h₂ : GoHandler) (r₁ r₂ : Router)
    (p₁ p₂ : Option (List Str)),
    Router.Handle NewRouter pattern m h₁ = some (r₁, p₁) →
    Router.Handle r₁ pattern m h₂ = some (r₂, p₂) →
    Router.Handle NewRouter pattern m h₂ = some (r₂, p₂) := by
  intro pattern m h₁ h₂ r₁ r₂ p₁ p₂ hreg₁ hreg₂
  by_cases hpe : pattern = []
  · subst hpe
    unfold Router.Handle at hreg₁ hreg₂ ⊢
    simp only [if_pos rfl, if_true] at hreg₁ hreg₂ ⊢
    injection Option.some.inj hreg₁ with h1 h2
    subst h1
    subst h2
    exact hreg₂
  · by_cases hps : pattern = ['/']
    · subst hps
      unfold Router.Handle at hreg₁ hreg₂ ⊢
      simp only [if_neg (by simp : ¬ (['/'] : Str) = []), if_pos rfl, if_true]
        at hreg₁ hreg₂ ⊢
      injection Option.some.inj hreg₁ with h1 h2
      subst h2
      rw [← h1] at hreg₂
      simp only [Route.handlers_setMethods, Route.handlers_setHandlers,
        Route.methods_setHandlers, Route.methods_setMethods] at hreg₂
      rw [setMethods_setHandlers_comm, setMethods_setMethods,
        ← setMethods_setHandlers_comm, setHandlers_setHandlers] at hreg₂
      rw [show (NewRouter.base.handlers : List (String × GoHandler)) = [] from rfl,
        ainsertAll_twice_nodup (by simp [akeys]),
        show (NewRouter.base.methods : Methods) = [] from rfl, CopyFrom_CopyFrom] at hreg₂
      rw [show ainsertAll ([] : List (String × GoHandler)) m h₂ =
        ainsertAll NewRouter.base.handlers m h₂ from rfl,
        show Methods.CopyFrom ([] : Methods) m =
          Methods.CopyFrom NewRouter.base.methods m from rfl] at hreg₂
      exact hreg₂
    · unfold Router.Handle at hreg₁ hreg₂ ⊢
      rw [if_neg hpe, if_neg hps] at hreg₁ hreg₂ ⊢
      cases hps₁ : parseSegs (stripLead pattern) with
      | none =>
        rw [getRoute_eq_none (stripLead pattern).length (stripLead pattern)
          NewRouter.base m h₁ (le_refl _) hps₁] at hreg₁
        exact absurd hreg₁ (by simp)
      | some segs =>
        rw [getRoute_eq_insertSegs (stripLead pattern).length (stripLead pattern) segs
          NewRouter.base m h₁ (le_refl _) hps₁] at hreg₁
        injection Option.some.inj hreg₁ with h1 h2
        subst h2
        rw [← h1] at hreg₂
        rw [getRoute_eq_insertSegs (stripLead pattern).length (stripLead pattern) segs
          (insertSegs m h₁ NewRouter.base segs) m h₂ (le_refl _) hps₁] at hreg₂
        rw [insertSegs_twice segs NewRouter.base m h₁ h₂ rfl rfl] at hreg₂
        rw [getRoute_eq_insertSegs (stripLead pattern).length (stripLead pattern) segs
          NewRouter.base m h₂ (le_refl _) hps₁]
        exact hreg₂

/-- Witness for `c9_reregistration_overwrites` at pattern `/dup` with GET:
registering again over the result of the first registration gives the same
router as registering the second handler directly. -/
theorem c9_reregistration_overwrites_witness :
    Router.Handle NewRouter ("/dup".toList) ["GET"] (some 2) =
      Router.Handle ((Router.Handle NewRouter ("/dup".toList) ["GET"] (some 1)).get
        (by decide)).1 ("/dup".toList) ["GET"] (some 2) := by
  have hreg₁ : Router.Handle NewRouter ("/dup".toList) ["GET"] (some 1) =
      some ((Router.Handle NewRouter ("/dup".toList) ["GET"] (some 1)).get (by decide)) :=
    (Option.some_get (by decide)).symm
  have hreg₂ : Router.Handle ((Router.Handle NewRouter ("/dup".toList) ["GET"]
      (some 1)).get (by decide)).1 ("/dup".toList) ["GET"] (some 2) =
      some ((Router.Handle ((Router.Handle NewRouter ("/dup".toList) ["GET"]
        (some 1)).get (by decide)).1 ("/dup".toList) ["GET"] (some 2)).get (by decide)) :=
    (Option.some_get (by decide)).symm
  have hmain := c9_reregistration_overwrites ("/dup".toList) ["GET"] (some 1) (some 2)
    ((Router.Handle NewRouter ("/dup".toList) ["GET"] (some 1)).get (by decide)).1
    ((Router.Handle ((Router.Handle NewRouter ("/dup".toList) ["GET"]
      (some 1)).get (by decide)).1 ("/dup".toList) ["GET"] (some 2)).get (by decide)).1
    ((Router.Handle NewRouter ("/dup".toList) ["GET"] (some 1)).get (by decide)).2
    ((Router.Handle ((Router.Handle NewRouter ("/dup".toList) ["GET"]
      (some 1)).get (by decide)).1 ("/dup".toList) ["GET"] (some 2)).get (by decide)).2
    hreg₁ hreg₂
  rw [hmain, ← hreg₂]

/-! ### Claim C10: child method sets are contained in their parent's
(root exempt), preserved by registration -/

/-- Boolean subset test on method sets. -/
def msSubset (m₁ m₂ : Methods) : Bool :=
  m₁.all (fun s => decide (s ∈ m₂))

theorem msSubset_iff {m₁ m₂ : Methods} : msSubset m₁ m₂ = true ↔ ∀ s ∈ m₁, s ∈ m₂ := by
  unfold msSubset
  rw [List.all_eq_true]
  simp

mutual
/-- The C10 invariant below a node: every child's allowed-method set is a
subset of its parent's, recursively. -/
def subInv : Route → Bool
  | .mk _ _ ms _ rs _ => subInvList ms rs
/-- `subInv` for a children list under a parent method set. -/
def subInvList : Methods → List (Str × Route) → Bool
  | _, [] => true
  | ms, (_, c) :: rest => msSubset c.methods ms && subInv c && subInvList ms rest
end

/-- The C10 invariant at the root: the root's own method set is exempt, its
children are only required to satisfy the invariant among themselves. -/
def childrenInv : List (Str × Route) → Bool
  | [] => true
  | (_, c) :: rest => subInv c && childrenInv rest

/-- The C10 invariant of a router. -/
def RouterInv (router : Router) : Bool :=
  childrenInv router.base.routes

theorem subInv_eq (r : Route) : subInv r = subInvList r.methods r.routes := by
  cases r
  rfl

theorem subInv_setHandlers (r : Route) (hs : List (String × GoHandler)) :
    subInv (r.setHandlers hs) = subInv r := by
  cases r
  rfl

theorem subInv_setMethods (r : Route) (m : Methods) :
    subInv (r.setMethods m) = subInvList m r.routes := by
  cases r
  rfl

theorem subInv_setRoutes (r : Route) (rs : List (Str × Route)) :
    subInv (r.setRoutes rs) = subInvList r.methods rs := by
  cases r
  rfl

theorem subInvList_mono : ∀ {rs : List (Str × Route)} {ms ms' : Methods},
    subInvList ms rs = true → (∀ s ∈ ms, s ∈ ms') → subInvList ms' rs = true := by
  intro rs
  induction rs with
  | nil => intro ms ms' _ _; rfl
  | cons kc rest ih =>
    intro ms ms' hinv hsub
    obtain ⟨k, c⟩ := kc
    simp only [subInvList, Bool.and_eq_true] at hinv ⊢
    obtain ⟨⟨hms, hc⟩, hrest⟩ := hinv
    refine ⟨⟨?_, hc⟩, ih hrest hsub⟩
    rw [msSubset_iff] at hms ⊢
    exact fun s hs => hsub s (hms s hs)

theorem subInvList_ainsert : ∀ {rs : List (Str × Route)} {ms : Methods} {k : Str}
    {c : Route}, subInvList ms rs = true → msSubset c.methods ms = true →
    subInv c = true → subInvList ms (ainsert rs k c) = true := by
  intro rs
  induction rs with
  | nil =>
    intro ms k c _ hms hc
    simp only [ainsert, subInvList, Bool.and_eq_true]
    exact ⟨⟨hms, hc⟩, trivial⟩
  | cons kc rest ih =>
    intro ms k c hinv hms hc
    obtain ⟨k0, c0⟩ := kc
    simp only [subInvList, Bool.and_eq_true] at hinv
    obtain ⟨⟨hms0, hc0⟩, hrest⟩ := hinv
    by_cases h0 : k0 = k
    · subst h0
      simp only [ainsert, if_pos rfl, subInvList, Bool.and_eq_true]
      exact ⟨⟨hms, hc⟩, hrest⟩
    · simp only [ainsert, if_neg h0, subInvList, Bool.and_eq_true]
      exact ⟨⟨hms0, hc0⟩, ih hrest hms hc⟩

theorem subInvList_lookup : ∀ {rs : List (Str × Route)} {ms : Methods} {k : Str}
    {c : Route}, subInvList ms rs = true → alookup rs k = some c →
    msSubset c.methods ms = true ∧ subInv c = true := by
  intro rs
  induction rs with
  | nil => intro ms k c _ hlk; exact absurd hlk (by simp [alookup])
  | cons kc rest ih =>
    intro ms k c hinv hlk
    obtain ⟨k0, c0⟩ := kc
    simp only [subInvList, Bool.and_eq_true] at hinv
    obtain ⟨⟨hms0, hc0⟩, hrest⟩ := hinv
    simp only [alookup] at hlk
    by_cases h0 : k0 = k
    · rw [if_pos h0] at hlk
      obtain rfl := Option.some.inj hlk
      exact ⟨hms0, hc0⟩
    · rw [if_neg h0] at hlk
      exact ih hrest hlk

theorem childrenInv_ainsert : ∀ {rs : List (Str × Route)} {k : Str} {c : Route},
    childrenInv rs = true → subInv c = true → childrenInv (ainsert rs k c) = true := by
  intro rs
  induction rs with
  | nil =>
    intro k c _ hc
    simp only [ainsert, childrenInv, Bool.and_eq_true]
    exact ⟨hc, trivial⟩
  | cons kc rest ih =>
    intro k c hinv hc
    obtain ⟨k0, c0⟩ := kc
    simp only [childrenInv, Bool.and_eq_true] at hinv
    obtain ⟨hc0, hrest⟩ := hinv
    by_cases h0 : k0 = k
    · subst h0
      simp only [ainsert, if_pos rfl, childrenInv, Bool.and_eq_true]
      exact ⟨hc, hrest⟩
    · simp only [ainsert, if_neg h0, childrenInv, Bool.and_eq_true]
      exact ⟨hc0, ih hrest hc⟩

theorem childrenInv_lookup : ∀ {rs : List (Str × Route)} {k : Str} {c : Route},
    childrenInv rs = true → alookup rs k = some c → subInv c = true := by
  intro rs
  induction rs with
  | nil => intro k c _ hlk; exact absurd hlk (by simp [alookup])
  | cons kc rest ih =>
    intro k c hinv hlk
    obtain ⟨k0, c0⟩ := kc
    simp only [childrenInv, Bool.and_eq_true] at hinv
    obtain ⟨hc0, hrest⟩ := hinv
    simp only [alookup] at hlk
    by_cases h0 : k0 = k
    · rw [if_pos h0] at hlk
      obtain rfl := Option.some.inj hlk
      exact hc0
    · rw [if_neg h0] at hlk
      exact ih hrest hlk

/-- Inserting a pattern spine below a node whose method set already covers the
incoming set preserves the subtree invariant. -/
theorem insertSegs_subInv : ∀ (segs : List (Str × Bool)) (route : Route) (m : Methods)
    (h : GoHandler), subInv route = true → msSubset m route.methods = true →
    subInv (insertSegs m h route segs) = true := by
  intro segs
  induction segs with
  | nil =>
    intro route m h hinv _
    rw [show insertSegs m h route [] = route.setHandlers (ainsertAll route.handlers m h)
      from rfl]
    rw [subInv_setHandlers]
    exact hinv
  | cons kb rest ih =>
    intro route m h hinv hm
    obtain ⟨k, b⟩ := kb
    have hinv' : subInvList route.methods route.routes = true := subInv_eq route ▸ hinv
    cases hlk : alookup route.routes k with
    | some c =>
      obtain ⟨hcs, hcinv⟩ := subInvList_lookup hinv' hlk
      have hstep : insertSegs m h route ((k, b) :: rest) =
          route.setRoutes (ainsert route.routes k
            (insertSegs m h (c.setMethods (Methods.CopyFrom c.methods m)) rest)) := by
        show (let r0 : Route :=
            match alookup route.routes k with
            | some r => r.setMethods (Methods.CopyFrom r.methods m)
            | none => Route.mk k b (CloneMethods m) [] [] []
          route.setRoutes (ainsert route.routes k (insertSegs m h r0 rest))) = _
        simp only [hlk]
      rw [hstep, subInv_setRoutes]
      have hr0inv : subInv (c.setMethods (Methods.CopyFrom c.methods m)) = true := by
        rw [subInv_setMethods]
        apply subInvList_mono (subInv_eq c ▸ hcinv)
        intro s hs
        rw [mem_CopyFrom]
        exact Or.inl hs
      have hr0m : msSubset m (c.setMethods (Methods.CopyFrom c.methods m)).methods = true := by
        rw [Route.methods_setMethods, msSubset_iff]
        intro s hs
        rw [mem_CopyFrom]
        exact Or.inr hs
      have hcinv' := ih (c.setMethods (Methods.CopyFrom c.methods m)) m h hr0inv hr0m
      apply subInvList_ainsert hinv'
      · rw [insertSegs_methods, Route.methods_setMethods, msSubset_iff]
        intro s hs
        rw [mem_CopyFrom] at hs
        rcases hs with hs | hs
        · exact (msSubset_iff.mp hcs) s hs
        · exact (msSubset_iff.mp hm) s hs
      · exact hcinv'
    | none =>
      have hstep : insertSegs m h route ((k, b) :: rest) =
          route.setRoutes (ainsert route.routes k
            (insertSegs m h (Route.mk k b (CloneMethods m) [] [] []) rest)) := by
        show (let r0 : Route :=
            match alookup route.routes k with
            | some r => r.setMethods (Methods.CopyFrom r.methods m)
            | none => Route.mk k b (CloneMethods m) [] [] []
          route.setRoutes (ainsert route.routes k (insertSegs m h r0 rest))) = _
        simp only [hlk]
      rw [hstep, subInv_setRoutes]
      have hr0inv : subInv (Route.mk k b (CloneMethods m) [] [] []) = true := rfl
      have hr0m : msSubset m (Route.mk k b (CloneMethods m) [] [] []).methods = true := by
        rw [Route.methods_mk, msSubset_iff]
        intro s hs
        rw [mem_CloneMethods]
        exact hs
      have hcinv' := ih (Route.mk k b (CloneMethods m) [] [] []) m h hr0inv hr0m
      apply subInvList_ainsert hinv'
      · rw [insertSegs_methods, Route.methods_mk, msSubset_iff]
        intro s hs
        rw [mem_CloneMethods] at hs
        exact (msSubset_iff.mp hm) s hs
      · exact hcinv'

/-- Inserting a pattern spine below the root preserves the root invariant (the
root's own method set is exempt and is not consulted). -/
theorem insertSegs_childrenInv : ∀ (segs : List (Str × Bool)) (route : Route)
    (m : Methods) (h : GoHandler), childrenInv route.routes = true →
    childrenInv (insertSegs m h route segs).routes = true := by
  intro segs route m h hinv
  cases segs with
  | nil =>
    rw [show insertSegs m h route [] = route.setHandlers (ainsertAll route.handlers m h)
      from rfl]
    rw [Route.routes_setHandlers]
    exact hinv
  | cons kb rest =>
    obtain ⟨k, b⟩ := kb
    cases hlk : alookup route.routes k with
    | some c =>
      have hcinv := childrenInv_lookup hinv hlk
      have hstep : insertSegs m h route ((k, b) :: rest) =
          route.setRoutes (ainsert route.routes k
            (insertSegs m h (c.setMethods (Methods.CopyFrom c.methods m)) rest)) := by
        show (let r0 : Route :=
            match alookup route.routes k with
            | some r => r.setMethods (Methods.CopyFrom r.methods m)
            | none => Route.mk k b (CloneMethods m) [] [] []
          route.setRoutes (ainsert route.routes k (insertSegs m h r0 rest))) = _
        simp only [hlk]
      rw [hstep, Route.routes_setRoutes]
      apply childrenInv_ainsert hinv
      apply insertSegs_subInv
      · rw [subInv_setMethods]
        apply subInvList_mono (subInv_eq c ▸ hcinv)
        intro s hs
        rw [mem_CopyFrom]
        exact Or.inl hs
      · rw [Route.methods_setMethods, msSubset_iff]
        intro s hs
        rw [mem_CopyFrom]
        exact Or.inr hs
    | none =>
      have hstep : insertSegs m h route ((k, b) :: rest) =
          route.setRoutes (ainsert route.routes k
            (insertSegs m h (Route.mk k b (CloneMethods m) [] [] []) rest)) := by
        show (let r0 : Route :=
            match alookup route.routes k with
            | some r => r.setMethods (Methods.CopyFrom r.methods m)
            | none => Route.mk k b (CloneMethods m) [] [] []
          route.setRoutes (ainsert route.routes k (insertSegs m h r0 rest))) = _
        simp only [hlk]
      rw [hstep, Route.routes_setRoutes]
      apply childrenInv_ainsert hinv
      apply insertSegs_subInv
      · rfl
      · rw [Route.methods_mk, msSubset_iff]
        intro s hs
        rw [mem_CloneMethods]
        exact hs

/-- C10: for every non-root node and every child of it, the child's
allowed-method set is a subset of the node's — the invariant holds of a fresh
router and is preserved by every registration; the root node is exempt. -/
theorem c10_child_methods_subset_invariant :
    (RouterInv NewRouter = true) ∧
    ∀ (router : Router) (pattern : Str) (m : Methods) (h : GoHandler) (r' : Router)
      (p' : Option (List Str)), RouterInv router = true →
      Router.Handle router pattern m h = some (r', p') → RouterInv r' = true := by
  refine ⟨rfl, ?_⟩
  intro router pattern m h r' p' hinv hreg
  by_cases hpe : pattern = []
  · subst hpe
    unfold Router.Handle at hreg
    simp only [if_pos rfl, if_true] at hreg
    injection Option.some.inj hreg with h1 h2
    rw [← h1]
    exact hinv
  · by_cases hps : pattern = ['/']
    · subst hps
      unfold Router.Handle at hreg
      simp only [if_neg (by simp : ¬ (['/'] : Str) = []), if_pos rfl, if_true] at hreg
      injection Option.some.inj hreg with h1 h2
      rw [← h1]
      unfold RouterInv
      simp only [Route.routes_setMethods, Route.routes_setHandlers]
      exact hinv
    · unfold Router.Handle at hreg
      rw [if_neg hpe, if_neg hps] at hreg
      cases hsegs : parseSegs (stripLead pattern) with
      | none =>
        rw [getRoute_eq_none (stripLead pattern).length (stripLead pattern)
          router.base m h (le_refl _) hsegs] at hreg
        exact absurd hreg (by simp)
      | some segs =>
        rw [getRoute_eq_insertSegs (stripLead pattern).length (stripLead pattern) segs
          router.base m h (le_refl _) hsegs] at hreg
        injection Option.some.inj hreg with h1 h2
        rw [← h1]
        unfold RouterInv
        exact insertSegs_childrenInv segs router.base m h hinv

/-- Witness for `c10_child_methods_subset_invariant`: registering `/w/x`
on a fresh router preserves the invariant. -/
theorem c10_child_methods_subset_invariant_witness :
    RouterInv ((Router.Handle NewRouter ("/w/x".toList) ["GET"] (some 3)).get
      (by decide)).1 = true :=
  c10_child_methods_subset_invariant.2 NewRouter ("/w/x".toList) ["GET"] (some 3)
    ((Router.Handle NewRouter ("/w/x".toList) ["GET"] (some 3)).get (by decide)).1
    ((Router.Handle NewRouter ("/w/x".toList) ["GET"] (some 3)).get (by decide)).2
    (by decide) (Option.some_get (by decide)).symm

/-! ### Claim C1, amended part: dispatch of a request matching the registered
pattern's shape -/

/-- Whether a slug sequence matches a segment sequence's literal/parameter
shape: literal positions must carry exactly the segment key, parameter
positions may carry anything. -/
def shapeMatch : List (Str × Bool) → List Str → Bool
  | [], [] => true
  | (k, b) :: sr, s :: ss => (b || decide (s = k)) && shapeMatch sr ss
  | _, _ => false

/-- The captures of a matching request: each parameter position's name paired
with the slug at that position, in order. -/
def paramAssoc : List (Str × Bool) → List Str → List (Str × Str)
  | (k, true) :: sr, s :: ss => (k, s) :: paramAssoc sr ss
  | (_, false) :: sr, _ :: ss => paramAssoc sr ss
  | _, _ => []

/-- The parameter names of a segment sequence, in order. -/
def paramNames (segs : List (Str × Bool)) : List Str :=
  (segs.filter (fun kb => kb.2)).map Prod.fst

/-- The slug sequence a request path is cut into by `Router.ServeHTTP`. -/
def requestSlugs (path : Str) : List Str :=
  let urlPath := stripLead path
  let ts : Bool := urlPath.getLast? = some '/'
  pathSlugs ts urlPath

/-- Walking a freshly inserted pattern spine with a shape-matching slug
sequence reaches the terminal handler and binds exactly the parameter
captures. -/
theorem walkSlugs_insertSegs : ∀ (segs : List (Str × Bool)) (slugs : List Str)
    (router : Router) (method : String) (m : Methods) (hid : Nat) (route : Route)
    (ancs : List Route) (params : List (Str × Str)),
    route.routes = [] → route.handlers = [] → method ∈ m →
    shapeMatch segs slugs = true → (paramNames segs).Nodup →
    (∀ k ∈ paramNames segs, alookup params k = none) →
    walkSlugs router method (insertSegs m (some hid) route segs) ancs params slugs =
      Outcome.matched hid (params ++ paramAssoc segs slugs) := by
  intro segs
  induction segs with
  | nil =>
    intro slugs router method m hid route ancs params hro hha hm hshape _ _
    cases slugs with
    | cons s ss => exact absurd hshape (by simp [shapeMatch])
    | nil =>
      have hgh : (route.setHandlers (ainsertAll route.handlers m (some hid))).getHandler
          method = some hid := by
        unfold Route.getHandler
        rw [Route.handlers_setHandlers, hha, alookup_ainsertAll]
        rw [if_pos hm]
        rfl
      show router.finishAt method (route.setHandlers (ainsertAll route.handlers m
        (some hid))) ancs params = _
      rw [show paramAssoc [] [] = ([] : List (Str × Str)) from rfl, List.append_nil]
      unfold Router.finishAt
      rw [hgh]
  | cons kb rest ih =>
    intro slugs router method m hid route ancs params hro hha hm hshape hnd hdisj
    obtain ⟨k, b⟩ := kb
    cases slugs with
    | nil => exact absurd hshape (by simp [shapeMatch])
    | cons s ss =>
      simp only [shapeMatch, Bool.and_eq_true, Bool.or_eq_true, decide_eq_true_eq]
        at hshape
      obtain ⟨hb, hrest⟩ := hshape
      obtain ⟨c', hc'⟩ : ∃ c, c = insertSegs m (some hid)
          (Route.mk k b (CloneMethods m) [] [] []) rest := ⟨_, rfl⟩
      have hstep : insertSegs m (some hid) route ((k, b) :: rest) =
          route.setRoutes [(k, c')] := by
        rw [hc']
        simp [insertSegs, hro, alookup, ainsert]
      have hcm : c'.methods = CloneMethods m := by
        rw [hc', insertSegs_methods]
        rfl
      have hcp : c'.param = b := by
        rw [hc', insertSegs_param]
        rfl
      have hcn : c'.name = k := by
        rw [hc', insertSegs_name]
        rfl
      have hHas : Methods.HasOrAll c'.methods method = true := by
        apply HasOrAll_of_mem
        rw [hcm, mem_CloneMethods]
        exact hm
      rw [hstep]
      by_cases hs : s = k
      · subst hs
        have halk : alookup [(s, c')] s = some c' := by
          simp [alookup]
        have hred : walkSlugs router method (route.setRoutes [(s, c')]) ancs params
            (s :: ss) =
            walkSlugs router method c' (route.setRoutes [(s, c')] :: ancs)
              (if c'.param then ainsert params c'.name s else params) ss := by
          simp only [walkSlugs, Route.routes_setRoutes, halk, hHas]
          rw [if_neg (by simp : ¬ (true = false))]
        rw [hred, hcp, hcn]
        cases b with
        | false =>
          rw [if_neg (by simp : ¬ (false = true))]
          have hih := ih ss router method m hid
            (Route.mk s false (CloneMethods m) [] [] [])
            (route.setRoutes [(s, c')] :: ancs) params rfl rfl hm hrest hnd hdisj
          rw [← hc'] at hih
          exact hih
        | true =>
          rw [if_pos rfl]
          have hnd2 : (s :: paramNames rest).Nodup := hnd
          have hpk : alookup params s = none :=
            hdisj s (List.mem_cons_self s (paramNames rest))
          have happ : ainsert params s s = params ++ [(s, s)] :=
            ainsert_append_of_none s hpk
          have hdisj2 : ∀ k2 ∈ paramNames rest, alookup (params ++ [(s, s)]) k2 =
              none := by
            intro k2 hk2
            have h1 : alookup params k2 = none :=
              hdisj k2 (List.mem_cons_of_mem s hk2)
            have h2 : ¬ s = k2 := fun he => (List.nodup_cons.mp hnd2).1 (he ▸ hk2)
            exact alookup_append_none s h1 h2
          have hih := ih ss router method m hid
            (Route.mk s true (CloneMethods m) [] [] [])
            (route.setRoutes [(s, c')] :: ancs) (params ++ [(s, s)]) rfl rfl hm hrest
            (List.nodup_cons.mp hnd2).2 hdisj2
          rw [← hc'] at hih
          rw [happ, hih, List.append_assoc]
          rfl
      · have hbt : b = true := hb.resolve_right hs
        subst hbt
        have hks : ¬ k = s := fun he => hs he.symm
        have halk : alookup [(k, c')] s = none := by
          simp [alookup, hks]
        have hfpc : findParamChild [(k, c')] method = some c' := by
          simp [findParamChild, List.find?, hcp, hHas]
        have hred : walkSlugs router method (route.setRoutes [(k, c')]) ancs params
            (s :: ss) =
            walkSlugs router method c' (route.setRoutes [(k, c')] :: ancs)
              (ainsert params c'.name s) ss := by
          simp only [walkSlugs, Route.routes_setRoutes, halk, hfpc]
        rw [hred, hcn]
        have hnd2 : (k :: paramNames rest).Nodup := hnd
        have hpk : alookup params k = none :=
          hdisj k (List.mem_cons_self k (paramNames rest))
        have happ : ainsert params k s = params ++ [(k, s)] :=
          ainsert_append_of_none s hpk
        have hdisj2 : ∀ k2 ∈ paramNames rest, alookup (params ++ [(k, s)]) k2 =
            none := by
          intro k2 hk2
          have h1 : alookup params k2 = none :=
            hdisj k2 (List.mem_cons_of_mem k hk2)
          have h2 : ¬ k = k2 := fun he => (List.nodup_cons.mp hnd2).1 (he ▸ hk2)
          exact alookup_append_none s h1 h2
        have hih := ih ss router method m hid
          (Route.mk k true (CloneMethods m) [] [] [])
          (route.setRoutes [(k, c')] :: ancs) (params ++ [(k, s)]) rfl rfl hm hrest
          (List.nodup_cons.mp hnd2).2 hdisj2
        rw [← hc'] at hih
        rw [happ, hih, List.append_assoc]
        rfl

/-- C1 (amended): registering a single non-root pattern on a fresh router and
serving a request whose slug sequence matches the pattern shape (literal
segments equal, parameter segments arbitrary, parameter names distinct)
invokes the registered handler with exactly the pattern's parameter
captures.  (The original claim's unconditional per-segment reading fails when
other registrations shadow a parameter segment: see the counterexample.) -/
theorem c1_single_pattern_dispatch (pattern path : Str) (segs : List (Str × Bool))
    (m : Methods) (method : String) (hid : Nat) (r' : Router)
    (p' : Option (List Str))
    (hp₀ : pattern ≠ []) (hp₁ : pattern ≠ ['/'])
    (hsegs : parseSegs (stripLead pattern) = some segs)
    (hm : method ∈ m)
    (hh : Router.Handle NewRouter pattern m (some hid) = some (r', p'))
    (hshape : shapeMatch segs (requestSlugs path) = true)
    (hnd : (paramNames segs).Nodup) :
    r'.ServeHTTP path method = Outcome.matched hid (paramAssoc segs (requestSlugs path)) := by
  unfold Router.Handle at hh
  rw [if_neg hp₀, if_neg hp₁] at hh
  have hgr := getRoute_eq_insertSegs (stripLead pattern).length (stripLead pattern) segs
    NewRouter.base m (some hid) (le_refl _) hsegs
  rw [hgr] at hh
  have hh2 : ((⟨insertSegs m (some hid) NewRouter.base segs, NewRouter.defaultHandlers,
      NewRouter.notFoundHandler⟩ : Router), some (segs.map Prod.fst)) = (r', p') :=
    Option.some.inj hh
  injection hh2 with h1 h2
  subst h1
  unfold Router.ServeHTTP
  rw [serveLoop_eq_walkSlugs (stripLead path).length _ method _ _ [] [] (stripLead path)
    (le_refl _)]
  exact walkSlugs_insertSegs segs _ _ method m hid NewRouter.base [] [] rfl rfl hm
    hshape hnd (fun _ _ => rfl)

theorem c1_single_pattern_dispatch_witness :
    ((Router.Handle NewRouter ("/slug2/{id}".toList) ["GET"] (some 7)).get
      (by decide)).1.ServeHTTP ("/slug2/abc".toList) "GET" =
      Outcome.matched 7 [("id".toList, "abc".toList)] := by
  have h := c1_single_pattern_dispatch ("/slug2/{id}".toList) ("/slug2/abc".toList)
    [("slug2".toList, false), ("id".toList, true)] ["GET"] "GET" 7
    ((Router.Handle NewRouter ("/slug2/{id}".toList) ["GET"] (some 7)).get (by decide)).1
    ((Router.Handle NewRouter ("/slug2/{id}".toList) ["GET"] (some 7)).get (by decide)).2
    (by decide) (by decide) (by decide) (by decide)
    (Option.some_get (by decide)).symm (by decide) (by decide)
  rw [h]
  decide

theorem c6_fallback_entry_three_states_witness :
    (Route.mk [] false [] [] [] []).getMatchAnyHandler "GET" = none ∧
    (Route.mk [] false [] [("GET", some 4)] [] []).getMatchAnyHandler "GET" = some 4 ∧
    (Route.mk [] false [] [("GET", none)] [] [("GET", some 6)]).getMatchAnyHandler
      "GET" =
      (Route.mk [] false [] [("GET", none)] [] [("GET", some 6)]).getHandler "GET" ∧
    alookup ((Route.mk [] false [] [] [] []).handleAnyHere ["GET"] none).matchAny
      "GET" = some none := by
  refine ⟨?_, ?_, ?_, ?_⟩
  · exact (c6_fallback_entry_three_states (Route.mk [] false [] [] [] []) "GET").1
      rfl rfl
  · exact (c6_fallback_entry_three_states
      (Route.mk [] false [] [("GET", some 4)] [] []) "GET").2.1 4 (by decide)
  · exact (c6_fallback_entry_three_states
      (Route.mk [] false [] [("GET", none)] [] [("GET", some 6)]) "GET").2.2.1
      (by decide) (by decide)
  · exact (c6_fallback_entry_three_states (Route.mk [] false [] [] [] [])
      "GET").2.2.2 ["GET"] (by decide)

theorem c8_wildcard_key_reserved_witness :
    Methods.Has (NewMethods ["GET", "POST"]) MethodAll = false ∧
    (Methods.HasOrAll (NewMethods ["GET", "POST"]) "GET" = true ↔
      "GET" ∈ ["GET", "POST"]) := by
  have h := c8_wildcard_key_reserved ["GET", "POST"] (by decide)
  exact ⟨h.1, h.2 "GET"⟩
